import Mathlib

/-!
Shallow embedding of the gdownjs Google Drive downloader.

The TypeScript sources are translated into executable Lean definitions:
strings are manipulated through their underlying character lists, the
Node.js network layer is modelled as an oracle (a list of responses or
transport errors consumed one per request), and the filesystem and the
metadata cache are explicit association lists threaded through the
functions that the source mutates them in.
-/

namespace Gdown

/-- Character class `[a-zA-Z0-9_-]` used by the drive-id regexes in
`src/parser.ts`. -/
def isIdChar (c : Char) : Bool :=
  (('a' ≤ c && c ≤ 'z') || ('A' ≤ c && c ≤ 'Z') || ('0' ≤ c && c ≤ '9')
    || c = '_' || c = '-')

/-- Character class `[0-9A-Za-z_]` used by the confirmation-token regexes in
the download orchestrator (`extractConfirmToken`). -/
def isTokenChar (c : Char) : Bool :=
  (('a' ≤ c && c ≤ 'z') || ('A' ≤ c && c ≤ 'Z') || ('0' ≤ c && c ≤ '9')
    || c = '_')

/-- Whitespace class for the `\s` regex escape and for `String.prototype.trim`. -/
def isWsChar (c : Char) : Bool :=
  c = ' ' || c = '\t' || c = '\n' || c = '\r' || c = '\x0c' || c = '\x0b'

/-- `lit.isPrefixOf s` on character lists (Boolean, executable). -/
def litPrefix : List Char → List Char → Bool
  | [], _ => true
  | _ :: _, [] => false
  | a :: as, b :: bs => a = b && litPrefix as bs

/-- `s.includes(sub)`: `sub` occurs contiguously inside `s`.  Mirrors
`String.prototype.includes` used by the URL-pattern dispatch. -/
def listContains (s sub : List Char) : Bool :=
  match s with
  | [] => litPrefix sub []
  | _ :: rest => litPrefix sub s || listContains rest sub

/-- `String.prototype.includes` lifted to Lean strings. -/
def strContains (s sub : String) : Bool :=
  listContains s.data sub.data

/-- Leftmost-match scanner: try the partial matcher at every start position of
the text, earliest position first — the semantics of an unanchored JavaScript
regex search. -/
def scanFor {α : Type} (tryAt : List Char → Option α) : List Char → Option α
  | [] => tryAt []
  | c :: rest =>
    match tryAt (c :: rest) with
    | some a => some a
    | none => scanFor tryAt rest

/-- `String.prototype.trim` (strip leading and trailing whitespace). -/
def trimChars (s : List Char) : List Char :=
  ((s.dropWhile isWsChar).reverse.dropWhile isWsChar).reverse

/-- `String.prototype.trim` on Lean strings. -/
def strTrim (s : String) : String :=
  String.mk (trimChars s.data)

/-!
## Backoff schedules

`src/utils.ts` line 82 (text fetch, HTTP 429) and the download orchestrator's
rate-limit branch compute `Math.min(base * Math.pow(2, attempt), cap)`.
-/

/-- Rate-limit backoff of `fetchText`:
`Math.min(2000 * Math.pow(2, retryCount), 60000)`. -/
def fetchTextRateBackoff (attempt : Nat) : Nat :=
  min (2000 * 2 ^ attempt) 60000

/-- Transport-error backoff of `fetchText`:
`Math.min(2000 * Math.pow(2, retryCount), 30000)`. -/
def fetchTextTransportBackoff (attempt : Nat) : Nat :=
  min (2000 * 2 ^ attempt) 30000

/-- Rate-limit backoff of the download orchestrator:
`Math.min(5000 * Math.pow(2, attempt), 120000)`. -/
def downloadRateBackoff (attempt : Nat) : Nat :=
  min (5000 * 2 ^ attempt) 120000

lemma min_pow_mono (base cap n : Nat) :
    min (base * 2 ^ n) cap ≤ min (base * 2 ^ (n + 1)) cap := by
  exact min_le_min
    (Nat.mul_le_mul_left base (Nat.pow_le_pow_right (by norm_num) (Nat.le_succ n)))
    (le_refl cap)

/-- C8: both rate-limit backoff schedules are monotonically non-decreasing in
the attempt number and never exceed their configured caps: the text-fetch
delay is `min(2000·2^n, 60000)` and the orchestrator rate-limit delay is
`min(5000·2^n, 120000)`. -/
theorem rate_backoff_monotone_and_capped (n : Nat) :
    fetchTextRateBackoff n ≤ 60000 ∧
    fetchTextRateBackoff n ≤ fetchTextRateBackoff (n + 1) ∧
    downloadRateBackoff n ≤ 120000 ∧
    downloadRateBackoff n ≤ downloadRateBackoff (n + 1) ∧
    fetchTextRateBackoff n = min (2000 * 2 ^ n) 60000 ∧
    downloadRateBackoff n = min (5000 * 2 ^ n) 120000 := by
  refine ⟨Nat.min_le_right _ _, min_pow_mono 2000 60000 n,
    Nat.min_le_right _ _, min_pow_mono 5000 120000 n, rfl, rfl⟩

/-!
## Cookie store (`src/cookies.ts`)

A `CookieJar` is a JavaScript object mapping cookie names to values; we model
it as an association list with JavaScript assignment semantics (`jar[k] = v`
overwrites an existing key in place, otherwise appends).
-/

/-- Cookie jar: association list from cookie name to value. -/
abbrev CookieJar : Type := List (String × String)

/-- Property read `jar[name]`. -/
def jarGet : CookieJar → String → Option String
  | [], _ => none
  | (k, v) :: rest, name => if k = name then some v else jarGet rest name

/-- Property write `jar[name] = value` (overwrite in place or append). -/
def jarSet : CookieJar → String → String → CookieJar
  | [], name, value => [(name, value)]
  | (k, v) :: rest, name, value =>
    if k = name then (k, value) :: rest else (k, v) :: jarSet rest name value

/-- Everything before the first occurrence of `sep`; models
`s.split(sep)[0]`. -/
def takeUntilChar (sep : Char) : List Char → List Char
  | [] => []
  | c :: rest => if c = sep then [] else c :: takeUntilChar sep rest

/-- One iteration of the loop body of `updateCookiesFromHeaders`
(`src/cookies.ts` lines 229–237): split the header line at `";"`, take the
part before the first `"="` as the name, the rest of that first part as the
value, and keep the pair only when both are non-empty (JavaScript
truthiness), trimming both. -/
def setCookieNameValue (line : String) : Option (String × String) :=
  let part0 := takeUntilChar ';' line.data
  let nameValue := takeUntilChar '=' part0
  let value := part0.drop (nameValue.length + 1)
  if nameValue ≠ [] ∧ value ≠ [] then
    some (String.mk (trimChars nameValue), String.mk (trimChars value))
  else none

/-- The `for (const cookie of setCookieHeaders)` loop of
`updateCookiesFromHeaders`. -/
def mergeSetCookieLines : CookieJar → List String → CookieJar
  | jar, [] => jar
  | jar, line :: rest =>
    match setCookieNameValue line with
    | some (n, v) => mergeSetCookieLines (jarSet jar n v) rest
    | none => mergeSetCookieLines jar rest

/-- `updateCookiesFromHeaders(jar, setCookieHeaders)` from `src/cookies.ts`:
returns the jar unchanged when the header list is `undefined`, otherwise
folds every `Set-Cookie` line into the jar. -/
def updateCookiesFromHeaders (jar : CookieJar) :
    Option (List String) → CookieJar
  | none => jar
  | some headers => mergeSetCookieLines jar headers

lemma jarGet_jarSet_self (jar : CookieJar) (n v : String) :
    jarGet (jarSet jar n v) n = some v := by
  induction jar with
  | nil => simp [jarSet, jarGet]
  | cons kv rest ih =>
    obtain ⟨k, w⟩ := kv
    by_cases hk : k = n
    · simp [jarSet, jarGet, hk]
    · simp [jarSet, jarGet, hk, ih]

lemma jarGet_jarSet_isSome (jar : CookieJar) (n v name : String)
    (h : (jarGet jar name).isSome) : (jarGet (jarSet jar n v) name).isSome := by
  induction jar with
  | nil => simp [jarGet] at h
  | cons kv rest ih =>
    obtain ⟨k, w⟩ := kv
    by_cases hk : k = n
    · subst hk
      by_cases hn : k = name
      · subst hn
        simp [jarSet, jarGet]
      · simp [jarSet, jarGet, hn] at h ⊢
        exact h
    · by_cases hn : k = name
      · subst hn
        simp [jarSet, jarGet, hk]
      · simp [jarGet, hn] at h
        simp [jarSet, jarGet, hk, hn]
        exact ih h

lemma mergeSetCookieLines_isSome (lines : List String) (jar : CookieJar)
    (name : String) (h : (jarGet jar name).isSome) :
    (jarGet (mergeSetCookieLines jar lines) name).isSome := by
  induction lines generalizing jar with
  | nil => exact h
  | cons line rest ih =>
    cases hc : setCookieNameValue line with
    | none => simpa [mergeSetCookieLines, hc] using ih jar h
    | some nv =>
      obtain ⟨n, v⟩ := nv
      simpa [mergeSetCookieLines, hc] using
        ih (jarSet jar n v) (jarGet_jarSet_isSome jar n v name h)

lemma mergeSetCookieLines_append (jar : CookieJar) (a b : List String) :
    mergeSetCookieLines jar (a ++ b) =
      mergeSetCookieLines (mergeSetCookieLines jar a) b := by
  induction a generalizing jar with
  | nil => rfl
  | cons line rest ih =>
    cases hc : setCookieNameValue line with
    | none => simp [mergeSetCookieLines, hc, ih]
    | some nv => obtain ⟨n, v⟩ := nv; simp [mergeSetCookieLines, hc, ih]

/-- C10: `updateCookiesFromHeaders` only adds or overwrites cookies, never
removes one; an `undefined` header list leaves the jar unchanged; an entry
whose `name=value` prefix has an empty name or an empty value leaves the jar
unchanged; and when the same name occurs in several lines the last value
wins. -/
theorem updateCookies_monotone_lastWins (jar : CookieJar) (hs : List String)
    (name : String) (hpres : (jarGet jar name).isSome)
    (line : String)
    (hskip : (takeUntilChar '=' (takeUntilChar ';' line.data) = [] ∨
      (takeUntilChar ';' line.data).drop
        ((takeUntilChar '=' (takeUntilChar ';' line.data)).length + 1) = []))
    (lastLine : String) (n v : String)
    (hlast : setCookieNameValue lastLine = some (n, v)) :
    (jarGet (updateCookiesFromHeaders jar (some hs)) name).isSome ∧
    updateCookiesFromHeaders jar none = jar ∧
    updateCookiesFromHeaders jar (some [line]) = jar ∧
    jarGet (updateCookiesFromHeaders jar (some (hs ++ [lastLine]))) n = some v := by
  refine ⟨mergeSetCookieLines_isSome hs jar name hpres, rfl, ?_, ?_⟩
  · have hnone : setCookieNameValue line = none := by
      unfold setCookieNameValue
      rcases hskip with h1 | h1 <;> simp [h1]
    simp [updateCookiesFromHeaders, mergeSetCookieLines, hnone]
  · rw [updateCookiesFromHeaders, mergeSetCookieLines_append]
    simp [mergeSetCookieLines, hlast, jarGet_jarSet_self]

/-- Witness for C10 at concrete inputs: a jar holding `a=1`, headers
overwriting `a` twice (last wins) plus a malformed entry `=x` that is
skipped. -/
theorem updateCookies_monotone_lastWins_witness :
    (jarGet (updateCookiesFromHeaders [("a", "1")]
        (some ["a=2; Path=/"])) "a").isSome ∧
    updateCookiesFromHeaders [("a", "1")] none = [("a", "1")] ∧
    updateCookiesFromHeaders [("a", "1")] (some ["=x"]) = [("a", "1")] ∧
    jarGet (updateCookiesFromHeaders [("a", "1")]
        (some (["a=2; Path=/"] ++ ["a=3"]))) "a" = some "3" := by
  exact updateCookies_monotone_lastWins [("a", "1")] ["a=2; Path=/"]
    "a" (by decide) "=x" (by decide) "a=3" "a" "3" (by decide)

/-!
## Confirmation token extractor (`extractConfirmToken` in the download module)

The two regexes are `confirm=([0-9A-Za-z_]+)&amp;id=` and
`name="confirm"\s+value="([0-9A-Za-z_]+)"`.  Both consist of literal pieces
around greedy character-class runs whose following literal starts with a
character outside the class (`&`, `v`, `"`), so the leftmost-match semantics
reduce to: at each start position, match the literals and the maximal runs.
-/

/-- Literal `confirm=` opening the link-style pattern. -/
def linkLit : List Char := "confirm=".data

/-- Literal `&amp;id=` closing the link-style pattern. -/
def linkSep : List Char := "&amp;id=".data

/-- Literal `name="confirm"` opening the form-field pattern. -/
def formLit1 : List Char := "name=\"confirm\"".data

/-- Literal `value="` of the form-field pattern. -/
def formLit2 : List Char := "value=\"".data

/-- Closing quote of the form-field pattern. -/
def quoteLit : List Char := "\"".data

/-- Greedy token run (`[0-9A-Za-z_]+`) followed by a required literal. -/
def tokenRunThen (litAfter s : List Char) : Option (List Char) :=
  let run := s.takeWhile isTokenChar
  if !run.isEmpty && litPrefix litAfter (s.dropWhile isTokenChar) then some run
  else none

/-- Anchored attempt of `confirm=([0-9A-Za-z_]+)&amp;id=` at the start of
`s`. -/
def linkTokenAt (s : List Char) : Option (List Char) :=
  if litPrefix linkLit s then tokenRunThen linkSep (s.drop linkLit.length)
  else none

/-- Anchored attempt of `name="confirm"\s+value="([0-9A-Za-z_]+)"` at the
start of `s`. -/
def formTokenAt (s : List Char) : Option (List Char) :=
  if litPrefix formLit1 s then
    let rest := s.drop formLit1.length
    let ws := rest.takeWhile isWsChar
    if !ws.isEmpty && litPrefix formLit2 (rest.dropWhile isWsChar) then
      tokenRunThen quoteLit ((rest.dropWhile isWsChar).drop formLit2.length)
    else none
  else none

/-- `html.match(/confirm=([0-9A-Za-z_]+)&amp;id=/)`: leftmost match. -/
def linkToken (html : List Char) : Option (List Char) :=
  scanFor linkTokenAt html

/-- `html.match(/name="confirm"\s+value="([0-9A-Za-z_]+)"/)`: leftmost
match. -/
def formToken (html : List Char) : Option (List Char) :=
  scanFor formTokenAt html

/-- `extractConfirmToken(html)` from the download module: the link-style
token if present, else the hidden-form token, else `null`. -/
def extractConfirmToken (html : String) : Option String :=
  match linkToken html.data with
  | some t => some (String.mk t)
  | none =>
    match formToken html.data with
    | some t => some (String.mk t)
    | none => none

/-- The link-style pattern occurs in `html` capturing token `t`. -/
def LinkPatternAt (html t : List Char) : Prop :=
  ∃ pre post, html = pre ++ linkLit ++ t ++ linkSep ++ post ∧
    t ≠ [] ∧ t.all isTokenChar

/-- The link-style pattern occurs somewhere in `html`. -/
def LinkPresent (html : List Char) : Prop := ∃ t, LinkPatternAt html t

/-- The form-field pattern occurs in `html` capturing token `t`. -/
def FormPatternAt (html t : List Char) : Prop :=
  ∃ pre ws post, html = pre ++ formLit1 ++ ws ++ formLit2 ++ t ++ quoteLit ++ post ∧
    ws ≠ [] ∧ ws.all isWsChar ∧ t ≠ [] ∧ t.all isTokenChar

/-- The form-field pattern occurs somewhere in `html`. -/
def FormPresent (html : List Char) : Prop := ∃ t, FormPatternAt html t

lemma litPrefix_iff (lit s : List Char) :
    litPrefix lit s = true ↔ ∃ post, s = lit ++ post := by
  induction lit generalizing s with
  | nil => simp [litPrefix]
  | cons a as ih =>
    cases s with
    | nil =>
      simp [litPrefix]
    | cons b bs =>
      simp only [litPrefix, Bool.and_eq_true, decide_eq_true_eq, ih bs]
      constructor
      · rintro ⟨rfl, post, rfl⟩
        exact ⟨post, rfl⟩
      · rintro ⟨post, h⟩
        obtain ⟨rfl, rfl⟩ : b = a ∧ bs = as ++ post := by
          simpa using h
        exact ⟨rfl, post, rfl⟩

lemma litPrefix_append (lit post : List Char) :
    litPrefix lit (lit ++ post) = true :=
  (litPrefix_iff lit (lit ++ post)).mpr ⟨post, rfl⟩

lemma all_takeWhile (p : Char → Bool) (l : List Char) :
    (l.takeWhile p).all p = true := by
  induction l with
  | nil => rfl
  | cons c cs ih =>
    by_cases h : p c
    · simp only [List.takeWhile, h, List.all_cons, Bool.and_eq_true]
      exact ⟨trivial, ih⟩
    · simp [List.takeWhile, h]

lemma takeWhile_run (p : Char → Bool) (t l : List Char)
    (ht : t.all p = true) (hl : ∀ c ∈ l.take 1, p c = false) :
    (t ++ l).takeWhile p = t ∧ (t ++ l).dropWhile p = l := by
  induction t with
  | nil =>
    cases l with
    | nil => exact ⟨rfl, rfl⟩
    | cons c cs =>
      have hc : p c = false := hl c (by simp)
      simp [List.takeWhile, List.dropWhile, hc]
  | cons a as ih =>
    have ha : p a = true := by
      simp only [List.all_cons, Bool.and_eq_true] at ht
      exact ht.1
    have has : as.all p = true := by
      simp only [List.all_cons, Bool.and_eq_true] at ht
      exact ht.2
    have := ih has
    simp [List.takeWhile, List.dropWhile, ha, this.1, this.2]

lemma scanFor_complete {α : Type} (tryAt : List Char → Option α)
    (pre rest : List Char) (h : (tryAt rest).isSome) :
    (scanFor tryAt (pre ++ rest)).isSome := by
  induction pre with
  | nil =>
    cases rest with
    | nil => simp only [List.nil_append, scanFor]; exact h
    | cons c cs =>
      simp only [List.nil_append, scanFor]
      cases htry : tryAt (c :: cs) with
      | none => rw [htry] at h; simp at h
      | some a => simp
  | cons c cs ih =>
    simp only [List.cons_append, scanFor]
    cases htry : tryAt (c :: (cs ++ rest)) with
    | none => exact ih
    | some a => simp

lemma scanFor_sound {α : Type} (tryAt : List Char → Option α)
    (s : List Char) (a : α) (h : scanFor tryAt s = some a) :
    ∃ pre rest, s = pre ++ rest ∧ tryAt rest = some a := by
  induction s with
  | nil => exact ⟨[], [], rfl, h⟩
  | cons c cs ih =>
    simp only [scanFor] at h
    cases htry : tryAt (c :: cs) with
    | some b =>
      rw [htry] at h
      exact ⟨[], c :: cs, rfl, by simpa [htry] using h⟩
    | none =>
      rw [htry] at h
      obtain ⟨pre, rest, heq, hmatch⟩ := ih h
      exact ⟨c :: pre, rest, by simp [heq], hmatch⟩

lemma tokenRunThen_complete (litAfter t post : List Char)
    (ht : t ≠ []) (hall : t.all isTokenChar = true)
    (hhead : ∀ c ∈ (litAfter ++ post).take 1, isTokenChar c = false) :
    tokenRunThen litAfter (t ++ (litAfter ++ post)) = some t := by
  obtain ⟨htake, hdrop⟩ := takeWhile_run isTokenChar t (litAfter ++ post) hall hhead
  simp [tokenRunThen, htake, hdrop, ht, litPrefix_append]

lemma tokenRunThen_sound (litAfter s t : List Char)
    (h : tokenRunThen litAfter s = some t) :
    t ≠ [] ∧ t.all isTokenChar = true ∧ ∃ post, s = t ++ litAfter ++ post := by
  simp only [tokenRunThen] at h
  by_cases hcond : (!(s.takeWhile isTokenChar).isEmpty &&
      litPrefix litAfter (s.dropWhile isTokenChar)) = true
  · rw [if_pos hcond] at h
    obtain rfl : s.takeWhile isTokenChar = t := by simpa using h
    simp only [Bool.and_eq_true, Bool.not_eq_true'] at hcond
    obtain ⟨hne, hlit⟩ := hcond
    obtain ⟨post, hpost⟩ := (litPrefix_iff _ _).mp hlit
    refine ⟨by simpa [List.isEmpty_iff] using hne, all_takeWhile _ _, post, ?_⟩
    conv_lhs => rw [← List.takeWhile_append_dropWhile (p := isTokenChar) (l := s)]
    rw [hpost, List.append_assoc]
  · rw [if_neg hcond] at h
    exact absurd h (by simp)

lemma linkTokenAt_complete (t post : List Char)
    (ht : t ≠ []) (hall : t.all isTokenChar = true) :
    linkTokenAt (linkLit ++ (t ++ (linkSep ++ post))) = some t := by
  have hhead : ∀ c ∈ (linkSep ++ post).take 1, isTokenChar c = false := by
    intro c hc
    simp only [linkSep] at hc
    simp only [List.take, List.cons_append, List.mem_singleton] at hc
    subst hc
    decide
  simp [linkTokenAt, litPrefix_append, List.drop_left,
    tokenRunThen_complete linkSep t post ht hall hhead]

lemma linkTokenAt_sound (s t : List Char) (h : linkTokenAt s = some t) :
    ∃ post, s = linkLit ++ (t ++ (linkSep ++ post)) ∧
      t ≠ [] ∧ t.all isTokenChar = true := by
  simp only [linkTokenAt] at h
  by_cases hlit : litPrefix linkLit s = true
  · rw [if_pos hlit] at h
    obtain ⟨rest, hrest⟩ := (litPrefix_iff _ _).mp hlit
    subst hrest
    rw [List.drop_left] at h
    obtain ⟨hne, hall, post, hpost⟩ := tokenRunThen_sound linkSep rest t h
    exact ⟨post, by rw [hpost]; simp [List.append_assoc], hne, hall⟩
  · rw [if_neg hlit] at h
    exact absurd h (by simp)

lemma formTokenAt_complete (ws t post : List Char)
    (hws : ws ≠ []) (hwall : ws.all isWsChar = true)
    (ht : t ≠ []) (hall : t.all isTokenChar = true) :
    formTokenAt (formLit1 ++ (ws ++ (formLit2 ++ (t ++ (quoteLit ++ post))))) =
      some t := by
  have hvhead : ∀ c ∈ (formLit2 ++ (t ++ (quoteLit ++ post))).take 1,
      isWsChar c = false := by
    intro c hc
    simp only [formLit2] at hc
    simp only [List.take, List.cons_append, List.mem_singleton] at hc
    subst hc
    decide
  have hqhead : ∀ c ∈ (quoteLit ++ post).take 1, isTokenChar c = false := by
    intro c hc
    simp only [quoteLit] at hc
    simp only [List.take, List.cons_append, List.mem_singleton] at hc
    subst hc
    decide
  obtain ⟨htake, hdrop⟩ :=
    takeWhile_run isWsChar ws (formLit2 ++ (t ++ (quoteLit ++ post))) hwall hvhead
  simp [formTokenAt, litPrefix_append, List.drop_left, htake, hdrop, hws,
    tokenRunThen_complete quoteLit t post ht hall hqhead]

lemma formTokenAt_sound (s t : List Char) (h : formTokenAt s = some t) :
    ∃ ws post, s = formLit1 ++ (ws ++ (formLit2 ++ (t ++ (quoteLit ++ post)))) ∧
      ws ≠ [] ∧ ws.all isWsChar = true ∧ t ≠ [] ∧ t.all isTokenChar = true := by
  simp only [formTokenAt] at h
  by_cases hlit : litPrefix formLit1 s = true
  · rw [if_pos hlit] at h
    obtain ⟨rest, hrest⟩ := (litPrefix_iff _ _).mp hlit
    subst hrest
    rw [List.drop_left] at h
    by_cases hcond : (!(rest.takeWhile isWsChar).isEmpty &&
        litPrefix formLit2 (rest.dropWhile isWsChar)) = true
    · rw [if_pos hcond] at h
      simp only [Bool.and_eq_true, Bool.not_eq_true'] at hcond
      obtain ⟨hwsne, hlit2⟩ := hcond
      obtain ⟨rest2, hrest2⟩ := (litPrefix_iff _ _).mp hlit2
      rw [hrest2, List.drop_left] at h
      obtain ⟨hne, hall, post, hpost⟩ := tokenRunThen_sound quoteLit rest2 t h
      refine ⟨rest.takeWhile isWsChar, post, ?_, ?_,
        all_takeWhile _ _, hne, hall⟩
      · conv_lhs =>
          rw [← List.takeWhile_append_dropWhile (p := isWsChar) (l := rest)]
        rw [hrest2, hpost]
        simp [List.append_assoc]
      · simpa [List.isEmpty_iff] using hwsne
    · rw [if_neg hcond] at h
      exact absurd h (by simp)
  · rw [if_neg hlit] at h
    exact absurd h (by simp)

lemma linkToken_complete (html : List Char) (h : LinkPresent html) :
    (linkToken html).isSome := by
  obtain ⟨t, pre, post, heq, hne, hall⟩ := h
  have : html = pre ++ (linkLit ++ (t ++ (linkSep ++ post))) := by
    rw [heq]; simp [List.append_assoc]
  rw [linkToken, this]
  exact scanFor_complete linkTokenAt pre _
    (by rw [linkTokenAt_complete t post hne hall]; simp)

lemma linkToken_sound (html t : List Char) (h : linkToken html = some t) :
    LinkPatternAt html t := by
  obtain ⟨pre, rest, heq, hmatch⟩ := scanFor_sound linkTokenAt html t h
  obtain ⟨post, hrest, hne, hall⟩ := linkTokenAt_sound rest t hmatch
  exact ⟨pre, post, by rw [heq, hrest]; simp [List.append_assoc], hne, hall⟩

lemma formToken_complete (html : List Char) (h : FormPresent html) :
    (formToken html).isSome := by
  obtain ⟨t, pre, ws, post, heq, hwsne, hwall, hne, hall⟩ := h
  have : html = pre ++ (formLit1 ++ (ws ++ (formLit2 ++ (t ++ (quoteLit ++ post))))) := by
    rw [heq]; simp [List.append_assoc]
  rw [formToken, this]
  exact scanFor_complete formTokenAt pre _
    (by rw [formTokenAt_complete ws t post hwsne hwall hne hall]; simp)

lemma formToken_sound (html t : List Char) (h : formToken html = some t) :
    FormPatternAt html t := by
  obtain ⟨pre, rest, heq, hmatch⟩ := scanFor_sound formTokenAt html t h
  obtain ⟨ws, post, hrest, hwsne, hwall, hne, hall⟩ := formTokenAt_sound rest t hmatch
  exact ⟨pre, ws, post, by rw [heq, hrest]; simp [List.append_assoc],
    hwsne, hwall, hne, hall⟩

/-- C7: `extractConfirmToken` is a pure function over the HTML text: it
returns a link-pattern token (`confirm=<token>&amp;id=`) whenever that
pattern is present — in particular the link-style token wins when both
patterns occur — falls back to the hidden form-field token
(`name="confirm" value="<token>"`) when the link pattern is absent, returns
`none` when neither pattern occurs, and every returned token consists only
of alphanumerics and underscore. -/
theorem extractConfirmToken_spec (html : String) :
    (LinkPresent html.data →
      ∃ t, extractConfirmToken html = some (String.mk t) ∧
        LinkPatternAt html.data t) ∧
    (¬ LinkPresent html.data → FormPresent html.data →
      ∃ t, extractConfirmToken html = some (String.mk t) ∧
        FormPatternAt html.data t) ∧
    (¬ LinkPresent html.data → ¬ FormPresent html.data →
      extractConfirmToken html = none) ∧
    (∀ u, extractConfirmToken html = some u →
      u.data.all isTokenChar = true) := by
  refine ⟨?_, ?_, ?_, ?_⟩
  · intro h
    obtain ⟨t, hsome⟩ := Option.isSome_iff_exists.mp (linkToken_complete html.data h)
    exact ⟨t, by simp [extractConfirmToken, hsome], linkToken_sound html.data t hsome⟩
  · intro hnl hf
    have hlnone : linkToken html.data = none := by
      cases hl : linkToken html.data with
      | none => rfl
      | some t => exact absurd ⟨t, linkToken_sound html.data t hl⟩ hnl
    obtain ⟨t, hsome⟩ := Option.isSome_iff_exists.mp (formToken_complete html.data hf)
    exact ⟨t, by simp [extractConfirmToken, hlnone, hsome],
      formToken_sound html.data t hsome⟩
  · intro hnl hnf
    have hlnone : linkToken html.data = none := by
      cases hl : linkToken html.data with
      | none => rfl
      | some t => exact absurd ⟨t, linkToken_sound html.data t hl⟩ hnl
    have hfnone : formToken html.data = none := by
      cases hf : formToken html.data with
      | none => rfl
      | some t => exact absurd ⟨t, formToken_sound html.data t hf⟩ hnf
    simp [extractConfirmToken, hlnone, hfnone]
  · intro u hu
    cases hl : linkToken html.data with
    | some t =>
      obtain ⟨_, _, _, _, hall⟩ := linkToken_sound html.data t hl
      simp only [extractConfirmToken, hl, Option.some.injEq] at hu
      rw [← hu]
      exact hall
    | none =>
      cases hf : formToken html.data with
      | some t =>
        obtain ⟨_, _, _, _, _, _, _, hall⟩ := formToken_sound html.data t hf
        simp only [extractConfirmToken, hl, hf, Option.some.injEq] at hu
        rw [← hu]
        exact hall
      | none => simp [extractConfirmToken, hl, hf] at hu

/-- Witness for C7: a body containing both patterns; the link-style token
`AbC` wins over the form-field token `XyZ`. -/
theorem extractConfirmToken_spec_witness :
    (∃ t, extractConfirmToken
        "confirm=AbC&amp;id=x name=\"confirm\" value=\"XyZ\"" =
          some (String.mk t) ∧
      LinkPatternAt
        "confirm=AbC&amp;id=x name=\"confirm\" value=\"XyZ\"".data t) ∧
    extractConfirmToken
        "confirm=AbC&amp;id=x name=\"confirm\" value=\"XyZ\"" = some "AbC" := by
  constructor
  · exact (extractConfirmToken_spec
      "confirm=AbC&amp;id=x name=\"confirm\" value=\"XyZ\"").1
      ⟨"AbC".data, [], "x name=\"confirm\" value=\"XyZ\"".data,
        by decide, by decide, by decide⟩
  · decide

/-!
## Resource resolver (`parseGoogleDriveUrl` in `src/parser.ts`)

`new URL(url)` is a platform primitive; its result is modelled by `UrlObj`
(hostname, pathname, search parameters), passed alongside the raw string:
`none` stands for the constructor throwing on an invalid URL.
-/

/-- Result of the platform's `new URL(...)`. -/
structure UrlObj where
  hostname : String
  pathname : String
  searchParams : List (String × String)

/-- Resource kinds of `ParsedUrl["type"]` (`src/types.ts`). -/
inductive DriveType
  | file
  | folder
  | document
  | spreadsheet
  | presentation
  | drawing
  | unknown
deriving DecidableEq, Repr

/-- `ParsedUrl` from `src/types.ts`. -/
structure ParsedUrl where
  id : String
  type : DriveType
  resourceKey : Option String
deriving DecidableEq, Repr

/-- `searchParams.get(key)`: first matching query parameter. -/
def searchParamGet : List (String × String) → String → Option String
  | [], _ => none
  | (k, v) :: rest, key => if k = key then some v else searchParamGet rest key

/-- `urlObj.searchParams.get("resourcekey") || undefined`: JavaScript
truthiness turns both `null` and the empty string into `undefined`. -/
def resourceKeyOf (params : List (String × String)) : Option String :=
  match searchParamGet params "resourcekey" with
  | some v => if v = "" then none else some v
  | none => none

/-- Anchored attempt of `<lit>([a-zA-Z0-9_-]+)` at the start of `s`. -/
def idAfterLitAt (lit s : List Char) : Option (List Char) :=
  if litPrefix lit s then
    let run := (s.drop lit.length).takeWhile isIdChar
    if !run.isEmpty then some run else none
  else none

/-- Leftmost match of `<lit>([a-zA-Z0-9_-]+)` — the shape of the
`/\/file\/d\/([a-zA-Z0-9_-]+)/` and `/\/drive\/folders\/([a-zA-Z0-9_-]+)/`
regexes. -/
def matchIdAfter (lit s : List Char) : Option (List Char) :=
  scanFor (idAfterLitAt lit) s

/-- Anchored attempt of the docs-editor alternation
`\/(document|spreadsheets|presentation|drawings)\/d\/([a-zA-Z0-9_-]+)`,
alternatives tried in source order, combined with the `typeMap` lookup. -/
def docsTokenAt (s : List Char) : Option (List Char × DriveType) :=
  match idAfterLitAt "/document/d/".data s with
  | some i => some (i, DriveType.document)
  | none =>
    match idAfterLitAt "/spreadsheets/d/".data s with
    | some i => some (i, DriveType.spreadsheet)
    | none =>
      match idAfterLitAt "/presentation/d/".data s with
      | some i => some (i, DriveType.presentation)
      | none =>
        match idAfterLitAt "/drawings/d/".data s with
        | some i => some (i, DriveType.drawing)
        | none => none

/-- Leftmost match of the docs-editor path regex. -/
def docsMatch (s : List Char) : Option (List Char × DriveType) :=
  scanFor docsTokenAt s

/-- Anchored attempt of `([a-zA-Z0-9_-]{25,})`. -/
def fuzzyAt (s : List Char) : Option (List Char) :=
  let run := s.takeWhile isIdChar
  if 25 ≤ run.length then some run else none

/-- Leftmost match of the fuzzy id regex `([a-zA-Z0-9_-]{25,})`. -/
def fuzzyMatch (s : List Char) : Option (List Char) :=
  scanFor fuzzyAt s

/-- Tier 1 of `parseGoogleDriveUrl`: direct file id in the path. -/
def tierFile (u : UrlObj) (rk : Option String) : Option ParsedUrl :=
  if listContains u.pathname.data "/file/d/".data then
    match matchIdAfter "/file/d/".data u.pathname.data with
    | some i => some ⟨String.mk i, DriveType.file, rk⟩
    | none => none
  else none

/-- Tier 2: folder URL. -/
def tierFolder (u : UrlObj) (rk : Option String) : Option ParsedUrl :=
  if listContains u.pathname.data "/drive/folders/".data then
    match matchIdAfter "/drive/folders/".data u.pathname.data with
    | some i => some ⟨String.mk i, DriveType.folder, rk⟩
    | none => none
  else none

/-- Tier 3: Google Docs/Sheets/Slides editor URL on the docs host. -/
def tierDocs (u : UrlObj) (rk : Option String) : Option ParsedUrl :=
  if listContains u.hostname.data "docs.google.com".data then
    match docsMatch u.pathname.data with
    | some (i, ty) => some ⟨String.mk i, ty, rk⟩
    | none => none
  else none

/-- Tier 4: `uc`-format export URL with an `id` query parameter. -/
def tierUcExport (u : UrlObj) (rk : Option String) : Option ParsedUrl :=
  match searchParamGet u.searchParams "id" with
  | some i =>
    if i ≠ "" ∧ listContains u.pathname.data "/uc".data then
      some ⟨i, DriveType.file, rk⟩
    else none
  | none => none

/-- Tier 5: bare `id` query parameter. -/
def tierIdParam (u : UrlObj) (rk : Option String) : Option ParsedUrl :=
  match searchParamGet u.searchParams "id" with
  | some i => if i ≠ "" then some ⟨i, DriveType.file, rk⟩ else none
  | none => none

/-- Tier 6: fuzzy extraction over the raw URL string, gated on the string
containing the drive hostname. -/
def tierFuzzyDrive (url : String) (rk : Option String) : Option ParsedUrl :=
  match fuzzyMatch url.data with
  | some run =>
    if strContains url "drive.google.com" then
      some ⟨String.mk run, DriveType.file, rk⟩
    else none
  | none => none

/-- The pattern cascade inside the `try` block of `parseGoogleDriveUrl`. -/
def parseStructured (url : String) (u : UrlObj) : Option ParsedUrl :=
  let rk := resourceKeyOf u.searchParams
  match tierFile u rk with
  | some r => some r
  | none =>
    match tierFolder u rk with
    | some r => some r
    | none =>
      match tierDocs u rk with
      | some r => some r
      | none =>
        match tierUcExport u rk with
        | some r => some r
        | none =>
          match tierIdParam u rk with
          | some r => some r
          | none => tierFuzzyDrive url rk

/-- `parseGoogleDriveUrl(url)` from `src/parser.ts`: the structured cascade
when the URL parses, then the last-resort fuzzy extraction over the raw
string (which carries no resource key). -/
def parseGoogleDriveUrl (url : String) (urlObj : Option UrlObj) :
    Option ParsedUrl :=
  let structured :=
    match urlObj with
    | some u => parseStructured url u
    | none => none
  match structured with
  | some r => some r
  | none =>
    match fuzzyMatch url.data with
    | some run => some ⟨String.mk run, DriveType.file, none⟩
    | none => none

lemma scanFor_head {α : Type} (tryAt : List Char → Option α) (s : List Char)
    (a : α) (h : tryAt s = some a) : scanFor tryAt s = some a := by
  cases s with
  | nil => exact h
  | cons c cs => simp [scanFor, h]

lemma litPrefix_contains (s sub : List Char) (h : litPrefix sub s = true) :
    listContains s sub = true := by
  cases s with
  | nil => exact h
  | cons c cs => simp [listContains, h]

lemma idAfterLitAt_here (lit id rest : List Char)
    (hne : id ≠ []) (hall : id.all isIdChar = true)
    (hrest : ∀ c ∈ rest.take 1, isIdChar c = false) :
    idAfterLitAt lit (lit ++ (id ++ rest)) = some id := by
  obtain ⟨htake, _⟩ := takeWhile_run isIdChar id rest hall hrest
  simp [idAfterLitAt, litPrefix_append, List.drop_left, htake, hne]

lemma matchIdAfter_here (lit id rest : List Char)
    (hne : id ≠ []) (hall : id.all isIdChar = true)
    (hrest : ∀ c ∈ rest.take 1, isIdChar c = false) :
    matchIdAfter lit (lit ++ (id ++ rest)) = some id :=
  scanFor_head _ _ _ (idAfterLitAt_here lit id rest hne hall hrest)

lemma dataMk (l : List Char) : (String.mk l).data = l := rfl

lemma idAfterLitAt_none (lit s : List Char) (h : litPrefix lit s = false) :
    idAfterLitAt lit s = none := by
  simp [idAfterLitAt, h]

lemma tierFile_some (u : UrlObj) (rk : Option String) (i : List Char)
    (hcont : listContains u.pathname.data "/file/d/".data = true)
    (hmatch : matchIdAfter "/file/d/".data u.pathname.data = some i) :
    tierFile u rk = some ⟨String.mk i, DriveType.file, rk⟩ := by
  simp only [tierFile, hcont, hmatch, if_true]

lemma tierFile_none (u : UrlObj) (rk : Option String)
    (h : listContains u.pathname.data "/file/d/".data = false) :
    tierFile u rk = none := by
  simp only [tierFile, h, Bool.false_eq_true, if_false]

lemma tierFolder_some (u : UrlObj) (rk : Option String) (i : List Char)
    (hcont : listContains u.pathname.data "/drive/folders/".data = true)
    (hmatch : matchIdAfter "/drive/folders/".data u.pathname.data = some i) :
    tierFolder u rk = some ⟨String.mk i, DriveType.folder, rk⟩ := by
  simp only [tierFolder, hcont, hmatch, if_true]

lemma tierFolder_none (u : UrlObj) (rk : Option String)
    (h : listContains u.pathname.data "/drive/folders/".data = false) :
    tierFolder u rk = none := by
  simp only [tierFolder, h, Bool.false_eq_true, if_false]

lemma tierDocs_some (u : UrlObj) (rk : Option String) (i : List Char)
    (ty : DriveType)
    (hhost : listContains u.hostname.data "docs.google.com".data = true)
    (hd : docsMatch u.pathname.data = some (i, ty)) :
    tierDocs u rk = some ⟨String.mk i, ty, rk⟩ := by
  simp only [tierDocs, hhost, if_true, hd]

lemma parseGoogle_of_structured (url : String) (u : UrlObj) (r : ParsedUrl)
    (h : parseStructured url u = some r) :
    parseGoogleDriveUrl url (some u) = some r := by
  simp only [parseGoogleDriveUrl, h]

lemma parseStructured_file (url : String) (u : UrlObj) (r : ParsedUrl)
    (h : tierFile u (resourceKeyOf u.searchParams) = some r) :
    parseStructured url u = some r := by
  simp only [parseStructured, h]

lemma parseStructured_folder (url : String) (u : UrlObj) (r : ParsedUrl)
    (h1 : tierFile u (resourceKeyOf u.searchParams) = none)
    (h2 : tierFolder u (resourceKeyOf u.searchParams) = some r) :
    parseStructured url u = some r := by
  simp only [parseStructured, h1, h2]

lemma parseStructured_docs (url : String) (u : UrlObj) (r : ParsedUrl)
    (h1 : tierFile u (resourceKeyOf u.searchParams) = none)
    (h2 : tierFolder u (resourceKeyOf u.searchParams) = none)
    (h3 : tierDocs u (resourceKeyOf u.searchParams) = some r) :
    parseStructured url u = some r := by
  simp only [parseStructured, h1, h2, h3]

lemma docsTokenAt_document (s i : List Char)
    (h : idAfterLitAt "/document/d/".data s = some i) :
    docsTokenAt s = some (i, DriveType.document) := by
  simp only [docsTokenAt, h]

lemma docsTokenAt_spreadsheet (s i : List Char)
    (h0 : idAfterLitAt "/document/d/".data s = none)
    (h : idAfterLitAt "/spreadsheets/d/".data s = some i) :
    docsTokenAt s = some (i, DriveType.spreadsheet) := by
  simp only [docsTokenAt, h0, h]

lemma docsTokenAt_presentation (s i : List Char)
    (h0 : idAfterLitAt "/document/d/".data s = none)
    (h1 : idAfterLitAt "/spreadsheets/d/".data s = none)
    (h : idAfterLitAt "/presentation/d/".data s = some i) :
    docsTokenAt s = some (i, DriveType.presentation) := by
  simp only [docsTokenAt, h0, h1, h]

lemma docsTokenAt_drawing (s i : List Char)
    (h0 : idAfterLitAt "/document/d/".data s = none)
    (h1 : idAfterLitAt "/spreadsheets/d/".data s = none)
    (h2 : idAfterLitAt "/presentation/d/".data s = none)
    (h : idAfterLitAt "/drawings/d/".data s = some i) :
    docsTokenAt s = some (i, DriveType.drawing) := by
  simp only [docsTokenAt, h0, h1, h2, h]

/-- C5: for every URL whose path matches a known pattern,
`parseGoogleDriveUrl` returns exactly the id embedded in that pattern with
the corresponding kind (`/file/d/<id>` → file, `/drive/folders/<id>` →
folder, docs-host `/(document|spreadsheets|presentation|drawings)/d/<id>` →
the corresponding document kind), and a present (non-empty) `resourcekey`
query parameter is returned as the access key. -/
theorem parseGoogleDriveUrl_patterns :
    (∀ (url host : String) (params : List (String × String)) (id rest : List Char),
      id ≠ [] → id.all isIdChar = true →
      (∀ c ∈ rest.take 1, isIdChar c = false) →
      parseGoogleDriveUrl url
          (some ⟨host, String.mk ("/file/d/".data ++ (id ++ rest)), params⟩) =
        some ⟨String.mk id, DriveType.file, resourceKeyOf params⟩) ∧
    (∀ (url host : String) (params : List (String × String)) (id rest : List Char),
      id ≠ [] → id.all isIdChar = true →
      (∀ c ∈ rest.take 1, isIdChar c = false) →
      listContains ("/drive/folders/".data ++ (id ++ rest)) "/file/d/".data = false →
      parseGoogleDriveUrl url
          (some ⟨host, String.mk ("/drive/folders/".data ++ (id ++ rest)), params⟩) =
        some ⟨String.mk id, DriveType.folder, resourceKeyOf params⟩) ∧
    (∀ (url host : String) (params : List (String × String)) (id rest : List Char),
      id ≠ [] → id.all isIdChar = true →
      (∀ c ∈ rest.take 1, isIdChar c = false) →
      listContains host.data "docs.google.com".data = true →
      (∀ word ty, (word, ty) ∈
          [("/document/d/", DriveType.document),
           ("/spreadsheets/d/", DriveType.spreadsheet),
           ("/presentation/d/", DriveType.presentation),
           ("/drawings/d/", DriveType.drawing)] →
        listContains (word.data ++ (id ++ rest)) "/file/d/".data = false →
        listContains (word.data ++ (id ++ rest)) "/drive/folders/".data = false →
        parseGoogleDriveUrl url
            (some ⟨host, String.mk (word.data ++ (id ++ rest)), params⟩) =
          some ⟨String.mk id, ty, resourceKeyOf params⟩)) ∧
    (∀ (params : List (String × String)) (rk : String),
      searchParamGet params "resourcekey" = some rk → rk ≠ "" →
      resourceKeyOf params = some rk) := by
  refine ⟨?_, ?_, ?_, ?_⟩
  · intro url host params id rest hne hall hrest
    exact parseGoogle_of_structured _ _ _ (parseStructured_file _ _ _
      (tierFile_some _ _ id (litPrefix_contains _ _ (litPrefix_append _ _))
        (matchIdAfter_here _ id rest hne hall hrest)))
  · intro url host params id rest hne hall hrest hnofile
    exact parseGoogle_of_structured _ _ _ (parseStructured_folder _ _ _
      (tierFile_none _ _ hnofile)
      (tierFolder_some _ _ id (litPrefix_contains _ _ (litPrefix_append _ _))
        (matchIdAfter_here _ id rest hne hall hrest)))
  · intro url host params id rest hne hall hrest hhost word ty hmem hnofile hnofolder
    fin_cases hmem
    · exact parseGoogle_of_structured _ _ _ (parseStructured_docs _ _ _
        (tierFile_none _ _ hnofile) (tierFolder_none _ _ hnofolder)
        (tierDocs_some _ _ id _ hhost (scanFor_head _ _ _
          (docsTokenAt_document _ id
            (idAfterLitAt_here _ id rest hne hall hrest)))))
    · exact parseGoogle_of_structured _ _ _ (parseStructured_docs _ _ _
        (tierFile_none _ _ hnofile) (tierFolder_none _ _ hnofolder)
        (tierDocs_some _ _ id _ hhost (scanFor_head _ _ _
          (docsTokenAt_spreadsheet _ id (idAfterLitAt_none _ _ rfl)
            (idAfterLitAt_here _ id rest hne hall hrest)))))
    · exact parseGoogle_of_structured _ _ _ (parseStructured_docs _ _ _
        (tierFile_none _ _ hnofile) (tierFolder_none _ _ hnofolder)
        (tierDocs_some _ _ id _ hhost (scanFor_head _ _ _
          (docsTokenAt_presentation _ id (idAfterLitAt_none _ _ rfl)
            (idAfterLitAt_none _ _ rfl)
            (idAfterLitAt_here _ id rest hne hall hrest)))))
    · exact parseGoogle_of_structured _ _ _ (parseStructured_docs _ _ _
        (tierFile_none _ _ hnofile) (tierFolder_none _ _ hnofolder)
        (tierDocs_some _ _ id _ hhost (scanFor_head _ _ _
          (docsTokenAt_drawing _ id (idAfterLitAt_none _ _ rfl)
            (idAfterLitAt_none _ _ rfl) (idAfterLitAt_none _ _ rfl)
            (idAfterLitAt_here _ id rest hne hall hrest)))))
  · intro params rk h1 h2
    simp only [resourceKeyOf, h1, if_neg h2]

/-- Witness for C5 on concrete URLs: `/file/d/ABC123/view`,
`/drive/folders/XYZ987` and `docs.google.com/spreadsheets/d/SHEET1/edit`,
the last with `resourcekey=K1`. -/
theorem parseGoogleDriveUrl_patterns_witness :
    parseGoogleDriveUrl "https://drive.google.com/file/d/ABC123/view"
        (some ⟨"drive.google.com",
          String.mk ("/file/d/".data ++ ("ABC123".data ++ "/view".data)), []⟩) =
      some ⟨String.mk "ABC123".data, DriveType.file, resourceKeyOf []⟩ ∧
    parseGoogleDriveUrl "https://drive.google.com/drive/folders/XYZ987"
        (some ⟨"drive.google.com",
          String.mk ("/drive/folders/".data ++ ("XYZ987".data ++ [])), []⟩) =
      some ⟨String.mk "XYZ987".data, DriveType.folder, resourceKeyOf []⟩ ∧
    parseGoogleDriveUrl "https://docs.google.com/spreadsheets/d/SHEET1/edit"
        (some ⟨"docs.google.com",
          String.mk ("/spreadsheets/d/".data ++ ("SHEET1".data ++ "/edit".data)),
          [("resourcekey", "K1")]⟩) =
      some ⟨String.mk "SHEET1".data, DriveType.spreadsheet,
        resourceKeyOf [("resourcekey", "K1")]⟩ ∧
    resourceKeyOf [("resourcekey", "K1")] = some "K1" := by
  refine ⟨?_, ?_, ?_, ?_⟩
  · exact parseGoogleDriveUrl_patterns.1
      "https://drive.google.com/file/d/ABC123/view" "drive.google.com" []
      "ABC123".data "/view".data (by decide) (by decide) (by decide)
  · exact parseGoogleDriveUrl_patterns.2.1
      "https://drive.google.com/drive/folders/XYZ987" "drive.google.com" []
      "XYZ987".data [] (by decide) (by decide) (by decide) (by decide)
  · exact parseGoogleDriveUrl_patterns.2.2.1
      "https://docs.google.com/spreadsheets/d/SHEET1/edit" "docs.google.com"
      [("resourcekey", "K1")] "SHEET1".data "/edit".data
      (by decide) (by decide) (by decide) (by decide)
      "/spreadsheets/d/" DriveType.spreadsheet (by simp) (by decide) (by decide)
  · exact parseGoogleDriveUrl_patterns.2.2.2
      [("resourcekey", "K1")] "K1" (by decide) (by decide)

/-!
## Text fetch (`fetchText` in `src/utils.ts`)

The network is an oracle: a list of events, one consumed per issued request.
An event is either a complete HTTP response or a transport-level error
(socket error or the 60s timeout firing).  The recursion mirrors the
source: 3xx-with-location re-invokes `fetchText` on the redirect target with
the same `retryCount`; 429 and transport errors re-invoke with
`retryCount + 1` while `retryCount < maxRetries`; other `>= 400` statuses
reject immediately; otherwise the response cookies are merged and the body
is returned.
-/

/-- An HTTP response as seen by `fetchText`'s response callback. -/
structure TextResponse where
  statusCode : Nat
  location : Option String
  setCookie : Option (List String)
  body : String
deriving DecidableEq, Repr

/-- One network event: a response or a transport-level request error. -/
inductive NetEvent
  | resp (r : TextResponse)
  | terr (msg : String)
deriving DecidableEq, Repr

/-- The ways `fetchText` can reject. -/
inductive FetchErr
  | rateLimited (maxRetries : Nat)
  | httpStatus (code : Nat)
  | transport (msg : String)
  | noResponse
deriving DecidableEq, Repr

/-- `fetchText(url, {jar, maxRetries, retryCount})` over the network oracle.
Returns the decoded body together with the final cookie jar (the source
mutates `jar` in place).  `.error .noResponse` is the model artifact for an
exhausted oracle. -/
def fetchTextModel (maxRetries : Nat) :
    List NetEvent → Nat → CookieJar → Except FetchErr (String × CookieJar)
  | [], _, _ => .error .noResponse
  | .terr msg :: rest, retryCount, jar =>
    if retryCount < maxRetries then
      fetchTextModel maxRetries rest (retryCount + 1) jar
    else .error (.transport msg)
  | .resp r :: rest, retryCount, jar =>
    if 300 ≤ r.statusCode ∧ r.statusCode < 400 ∧ r.location.isSome then
      fetchTextModel maxRetries rest retryCount jar
    else if r.statusCode = 429 then
      if retryCount < maxRetries then
        fetchTextModel maxRetries rest (retryCount + 1) jar
      else .error (.rateLimited maxRetries)
    else if 400 ≤ r.statusCode then
      .error (.httpStatus r.statusCode)
    else
      .ok (r.body, updateCookiesFromHeaders jar r.setCookie)

/-- An event that triggers the shared retry counter: a 429 response or a
transport error. -/
def retryableEvent : NetEvent → Bool
  | .terr _ => true
  | .resp r => r.statusCode = 429

/-- Counterexample to C2 as stated: a 302 redirect response carrying
`Set-Cookie: sid=abc` followed by a 200 response; the final jar is empty —
the redirect's session cookie was never merged (in `fetchText` the merge
happens only on the success path, after the redirect/429/error
early-returns). -/
theorem fetchText_redirect_cookie_dropped :
    fetchTextModel 5
        [NetEvent.resp ⟨302, some "https://next", some ["sid=abc"], ""⟩,
         NetEvent.resp ⟨200, none, none, "payload"⟩] 0 [] =
      Except.ok ("payload", ([] : CookieJar)) := rfl

/-- C2 (amended): in `fetchText`, the jar the caller sees is the input jar
updated with the `Set-Cookie` headers of exactly one response — the final
successful (non-redirect, non-429, status < 400) one; the cookies of
redirect, 429 and error responses are discarded. -/
theorem fetchText_cookies_merged_only_on_success
    (events : List NetEvent) (m rc : Nat) (jar : CookieJar)
    (body : String) (jarOut : CookieJar)
    (h : fetchTextModel m events rc jar = .ok (body, jarOut)) :
    ∃ r : TextResponse, NetEvent.resp r ∈ events ∧
      ¬(300 ≤ r.statusCode ∧ r.statusCode < 400 ∧ r.location.isSome) ∧
      r.statusCode ≠ 429 ∧ r.statusCode < 400 ∧
      body = r.body ∧ jarOut = updateCookiesFromHeaders jar r.setCookie := by
  induction events generalizing rc with
  | nil => simp [fetchTextModel] at h
  | cons e rest ih =>
    cases e with
    | terr msg =>
      simp only [fetchTextModel] at h
      by_cases hrc : rc < m
      · rw [if_pos hrc] at h
        obtain ⟨r, hmem, hprops⟩ := ih (rc + 1) h
        exact ⟨r, List.mem_cons_of_mem _ hmem, hprops⟩
      · rw [if_neg hrc] at h
        exact absurd h (by simp)
    | resp r =>
      simp only [fetchTextModel] at h
      by_cases hredir : 300 ≤ r.statusCode ∧ r.statusCode < 400 ∧ r.location.isSome
      · rw [if_pos hredir] at h
        obtain ⟨r', hmem, hprops⟩ := ih rc h
        exact ⟨r', List.mem_cons_of_mem _ hmem, hprops⟩
      · rw [if_neg hredir] at h
        by_cases h429 : r.statusCode = 429
        · rw [if_pos h429] at h
          by_cases hrc : rc < m
          · rw [if_pos hrc] at h
            obtain ⟨r', hmem, hprops⟩ := ih (rc + 1) h
            exact ⟨r', List.mem_cons_of_mem _ hmem, hprops⟩
          · rw [if_neg hrc] at h
            exact absurd h (by simp)
        · rw [if_neg h429] at h
          by_cases herr : 400 ≤ r.statusCode
          · rw [if_pos herr] at h
            exact absurd h (by simp)
          · rw [if_neg herr] at h
            obtain ⟨hbody, hjar⟩ : body = r.body ∧
                jarOut = updateCookiesFromHeaders jar r.setCookie := by
              have := h
              simp only [Except.ok.injEq, Prod.mk.injEq] at this
              exact ⟨this.1.symm, this.2.symm⟩
            exact ⟨r, List.mem_cons_self _ _, hredir, h429,
              Nat.lt_of_not_le herr, hbody, hjar⟩

/-- Witness for the amended C2: a single 200 response with `Set-Cookie:
a=b` on an empty jar. -/
theorem fetchText_cookies_merged_only_on_success_witness :
    ∃ r : TextResponse,
      NetEvent.resp r ∈ [NetEvent.resp ⟨200, none, some ["a=b"], "x"⟩] ∧
      ¬(300 ≤ r.statusCode ∧ r.statusCode < 400 ∧ r.location.isSome) ∧
      r.statusCode ≠ 429 ∧ r.statusCode < 400 ∧
      "x" = r.body ∧
      ([("a", "b")] : CookieJar) = updateCookiesFromHeaders [] r.setCookie :=
  fetchText_cookies_merged_only_on_success
    [NetEvent.resp ⟨200, none, some ["a=b"], "x"⟩] 5 0 [] "x" [("a", "b")] rfl

/-- Counterexample to C3 as stated: with the default ceiling of 5 retries,
three 429 responses followed by three transport errors exhaust the single
shared counter — the third transport error is not retried even though only
two transport retries happened, so the trailing 200 response is never
requested.  Under the claim (independent counters) this run would succeed. -/
theorem fetchText_shared_counter_cex :
    fetchTextModel 5
        [NetEvent.resp ⟨429, none, none, ""⟩,
         NetEvent.resp ⟨429, none, none, ""⟩,
         NetEvent.resp ⟨429, none, none, ""⟩,
         NetEvent.terr "connection reset",
         NetEvent.terr "connection reset",
         NetEvent.terr "connection reset",
         NetEvent.resp ⟨200, none, none, "late"⟩] 0 [] =
      Except.error (FetchErr.transport "connection reset") := rfl

/-- C3 (amended): 429 responses and transport errors draw from one shared
retry counter: a run of retryable events (429s and transport errors, in any
interleaving) followed by a success succeeds exactly when the total number
of retryable events fits in the remaining budget `maxRetries − retryCount`;
otherwise the run fails with a rate-limit or transport error. -/
theorem fetchText_shared_retry_budget
    (pre : List NetEvent) (hpre : ∀ e ∈ pre, retryableEvent e = true)
    (ok : TextResponse) (hok : ok.statusCode < 300)
    (m rc : Nat) (jar : CookieJar) :
    (rc + pre.length ≤ m →
      fetchTextModel m (pre ++ [NetEvent.resp ok]) rc jar =
        .ok (ok.body, updateCookiesFromHeaders jar ok.setCookie)) ∧
    (pre ≠ [] → m < rc + pre.length →
      ∃ err, fetchTextModel m (pre ++ [NetEvent.resp ok]) rc jar = .error err ∧
        (err = FetchErr.rateLimited m ∨ ∃ msg, err = FetchErr.transport msg)) := by
  induction pre generalizing rc with
  | nil =>
    refine ⟨fun _ => ?_, fun hne _ => absurd rfl hne⟩
    have hred : ¬(300 ≤ ok.statusCode ∧ ok.statusCode < 400 ∧ ok.location.isSome) := by
      rintro ⟨h1, -, -⟩
      exact absurd (lt_of_le_of_lt h1 hok) (lt_irrefl _)
    have h429 : ¬ ok.statusCode = 429 := by
      intro hc
      rw [hc] at hok
      norm_num at hok
    have herr : ¬ 400 ≤ ok.statusCode := by
      intro hc
      exact absurd (lt_of_le_of_lt hc hok) (by norm_num)
    simp only [List.nil_append, fetchTextModel, if_neg hred, if_neg h429,
      if_neg herr]
  | cons e pre' ih =>
    have hpre' : ∀ x ∈ pre', retryableEvent x = true :=
      fun x hx => hpre x (List.mem_cons_of_mem _ hx)
    have ihh := ih hpre'
    constructor
    · intro hbudget
      have hrc : rc < m := by
        have : rc + 1 ≤ rc + (e :: pre').length := by
          simp [Nat.add_le_add_left]
        omega
      cases e with
      | terr msg =>
        simp only [List.cons_append, fetchTextModel, if_pos hrc]
        exact ((ihh (rc + 1)).1 (by simp at hbudget ⊢; omega))
      | resp r =>
        have h429 : r.statusCode = 429 := by
          have := hpre (NetEvent.resp r) (List.mem_cons_self _ _)
          simpa [retryableEvent] using this
        have hred : ¬(300 ≤ r.statusCode ∧ r.statusCode < 400 ∧ r.location.isSome) := by
          rintro ⟨-, h2, -⟩
          rw [h429] at h2
          norm_num at h2
        simp only [List.cons_append, fetchTextModel, if_neg hred, if_pos h429,
          if_pos hrc]
        exact ((ihh (rc + 1)).1 (by simp at hbudget ⊢; omega))
    · intro _ hover
      by_cases hrc : rc < m
      · have hne' : pre' ≠ [] := by
          intro hnil
          rw [hnil] at hover
          simp at hover
          omega
        have hover' : m < rc + 1 + pre'.length := by
          simp at hover
          omega
        obtain ⟨err, herr, hcase⟩ := (ihh (rc + 1)).2 hne' hover'
        cases e with
        | terr msg =>
          exact ⟨err, by simp only [List.cons_append, fetchTextModel,
            if_pos hrc]; exact herr, hcase⟩
        | resp r =>
          have h429 : r.statusCode = 429 := by
            have := hpre (NetEvent.resp r) (List.mem_cons_self _ _)
            simpa [retryableEvent] using this
          have hred : ¬(300 ≤ r.statusCode ∧ r.statusCode < 400 ∧ r.location.isSome) := by
            rintro ⟨-, h2, -⟩
            rw [h429] at h2
            norm_num at h2
          exact ⟨err, by simp only [List.cons_append, fetchTextModel,
            if_neg hred, if_pos h429, if_pos hrc]; exact herr, hcase⟩
      · cases e with
        | terr msg =>
          refine ⟨FetchErr.transport msg, ?_, Or.inr ⟨msg, rfl⟩⟩
          simp only [List.cons_append, fetchTextModel, if_neg hrc]
        | resp r =>
          have h429 : r.statusCode = 429 := by
            have := hpre (NetEvent.resp r) (List.mem_cons_self _ _)
            simpa [retryableEvent] using this
          have hred : ¬(300 ≤ r.statusCode ∧ r.statusCode < 400 ∧ r.location.isSome) := by
            rintro ⟨-, h2, -⟩
            rw [h429] at h2
            norm_num at h2
          refine ⟨FetchErr.rateLimited m, ?_, Or.inl rfl⟩
          simp only [List.cons_append, fetchTextModel, if_neg hred,
            if_pos h429, if_neg hrc]

/-- Witness for the amended C3: two retryable events (one 429, one
transport error) against a budget of 5 — the trailing success is reached;
and the seven-event run of the counterexample fails. -/
theorem fetchText_shared_retry_budget_witness :
    fetchTextModel 5
        [NetEvent.resp ⟨429, none, none, ""⟩, NetEvent.terr "reset",
         NetEvent.resp ⟨200, none, none, "okbody"⟩] 0 [] =
      .ok ("okbody", updateCookiesFromHeaders [] none) :=
  (fetchText_shared_retry_budget
      [NetEvent.resp ⟨429, none, none, ""⟩, NetEvent.terr "reset"]
      (by decide) ⟨200, none, none, "okbody"⟩ (by decide) 5 0 []).1
    (by decide)

/-!
## Folder crawler listing parse (`fetchDriveFolderEntries` in the folder
module)

The listing-page regex lexer is a platform primitive; its stream of matches
(capture 1: entry id attribute, capture 2: href — here already
entity-decoded and URL-parsed, `none` when `new URL` throws — capture 3:
title) is the oracle input.  The loop body, the 50-entry cap
(`MAX_FILES_PER_FOLDER`) and the warning condition are translated
faithfully.
-/

/-- Bounded-fuel global literal replacement, the model of
`String.prototype.replace(/lit/g, rep)`: scan left to right, replace each
non-overlapping occurrence. -/
def replaceAllGo (pat rep : List Char) : Nat → List Char → List Char
  | 0, s => s
  | _ + 1, [] => []
  | fuel + 1, c :: rest =>
    if litPrefix pat (c :: rest) then
      rep ++ replaceAllGo pat rep fuel (rest.drop (pat.length - 1))
    else c :: replaceAllGo pat rep fuel rest

/-- `s.replace(/pat/g, rep)` for a literal pattern. -/
def replaceAllStr (pat rep s : String) : String :=
  String.mk (replaceAllGo pat.data rep.data s.data.length s.data)

/-- `decodeHtmlEntities` from the folder module (same chain as in
`src/parser.ts`): six sequential global replacements. -/
def decodeHtmlEntities (value : String) : String :=
  replaceAllStr "&#x2F;" "/"
    (replaceAllStr "&#39;" "'"
      (replaceAllStr "&quot;" "\""
        (replaceAllStr "&gt;" ">"
          (replaceAllStr "&lt;" "<"
            (replaceAllStr "&amp;" "&" value)))))

/-- Result of `classifyDriveHref`. -/
structure HrefClass where
  id : Option String
  type : DriveType
  resourceKey : Option String
deriving DecidableEq, Repr

/-- `classifyDriveHref(href)` from the folder module: folder pattern first,
then file pattern, then `id` query parameter; `none` input models the
`new URL` constructor throwing. -/
def classifyDriveHref : Option UrlObj → HrefClass
  | none => ⟨none, DriveType.file, none⟩
  | some u =>
    let resourceKey := resourceKeyOf u.searchParams
    if listContains u.pathname.data "/drive/folders/".data then
      match matchIdAfter "/drive/folders/".data u.pathname.data with
      | some i => ⟨some (String.mk i), DriveType.folder, resourceKey⟩
      | none => ⟨none, DriveType.folder, resourceKey⟩
    else if listContains u.pathname.data "/file/d/".data then
      match matchIdAfter "/file/d/".data u.pathname.data with
      | some i => ⟨some (String.mk i), DriveType.file, resourceKey⟩
      | none => ⟨none, DriveType.file, resourceKey⟩
    else
      match searchParamGet u.searchParams "id" with
      | some i =>
        if i ≠ "" then ⟨some i, DriveType.file, resourceKey⟩
        else ⟨none, DriveType.file, none⟩
      | none => ⟨none, DriveType.file, none⟩

/-- One match of the `flip-entry` listing regex. -/
structure ListingMatch where
  entryId : String
  href : Option UrlObj
  title : String

/-- `FolderEntry` from `src/types.ts` (kinds restricted to file/folder by
construction). -/
structure FolderEntry where
  id : String
  name : String
  type : DriveType
  resourceKey : Option String
deriving DecidableEq, Repr

/-- The loop body of `fetchDriveFolderEntries` for one match: classify the
href; a null id is skipped (`continue`), otherwise build the entry with
`name: title || id` after entity-decoding and trimming the title. -/
def entryOfMatch (m : ListingMatch) : Option FolderEntry :=
  let title := strTrim (decodeHtmlEntities m.title)
  let c := classifyDriveHref m.href
  match c.id with
  | none => none
  | some i => some ⟨i, if title = "" then i else title, c.type, c.resourceKey⟩

/-- The `while ((match = entryRegex.exec(html)) !== null && fileCount <
MAX_FILES_PER_FOLDER)` loop: returns the collected entries and the final
`fileCount`. -/
def folderLoop : List ListingMatch → Nat → List FolderEntry × Nat
  | [], fileCount => ([], fileCount)
  | m :: rest, fileCount =>
    if fileCount < 50 then
      match entryOfMatch m with
      | some e =>
        let (es, c) := folderLoop rest (fileCount + 1)
        (e :: es, c)
      | none => folderLoop rest fileCount
    else ([], fileCount)

/-- `fetchDriveFolderEntries` over the match oracle: the parsed entries and
whether the over-cap warning is emitted
(`fileCount >= MAX_FILES_PER_FOLDER && !options.quiet`). -/
def fetchDriveFolderEntries (ms : List ListingMatch) (quiet : Bool) :
    List FolderEntry × Bool :=
  let (entries, fileCount) := folderLoop ms 0
  (entries, decide (50 ≤ fileCount) && !quiet)

/-- The classifiable entries of a listing page, in page order, uncapped. -/
def validEntries (ms : List ListingMatch) : List FolderEntry :=
  ms.filterMap entryOfMatch

lemma folderLoop_eq (ms : List ListingMatch) (count : Nat) (hc : count ≤ 50) :
    folderLoop ms count =
      ((validEntries ms).take (50 - count),
        min (count + (validEntries ms).length) 50) := by
  induction ms generalizing count with
  | nil =>
    simp [folderLoop, validEntries, Nat.min_eq_left, hc]
  | cons m rest ih =>
    by_cases hlt : count < 50
    · cases he : entryOfMatch m with
      | some e =>
        have := ih (count + 1) (by omega)
        simp only [folderLoop, if_pos hlt, he, this, validEntries,
          List.filterMap_cons, List.length_cons, Prod.mk.injEq]
        constructor
        · have h50 : 50 - count = (50 - (count + 1)) + 1 := by omega
          rw [h50, List.take_succ_cons]
        · omega
      | none =>
        have := ih count hc
        simp only [folderLoop, if_pos hlt, he, this, validEntries,
          List.filterMap_cons]
    · have hceq : count = 50 := by omega
      subst hceq
      simp [folderLoop, Nat.min_eq_right]

/-- Counterexample to C6 as stated: a listing page with exactly 50
well-formed entry blocks — not more than 50 — still sets the warning
condition (`fileCount >= 50`), contradicting «a warning exactly when the
page contains more than 50 entries». -/
theorem folder_warning_at_exactly_fifty :
    (List.replicate 50
        (ListingMatch.mk "e1"
          (some ⟨"drive.google.com", "/drive/folders/AAA", []⟩) "T")).length
        = 50 ∧
    (fetchDriveFolderEntries
        (List.replicate 50
          (ListingMatch.mk "e1"
            (some ⟨"drive.google.com", "/drive/folders/AAA", []⟩) "T"))
        false).2 = true := by
  exact ⟨by decide, by decide⟩

/-- C6 (amended): `fetchDriveFolderEntries` returns the first (at most) 50
classifiable entries of the listing page in page order — a page with 60
well-formed blocks yields exactly the first 50 — and the non-fatal warning
is emitted exactly when at least 50 entries were parsed (thus also for a
page with exactly 50 entries); the remainder is ignored, never an error. -/
theorem fetchDriveFolderEntries_cap_spec (ms : List ListingMatch) :
    (fetchDriveFolderEntries ms false).1 = (validEntries ms).take 50 ∧
    (fetchDriveFolderEntries ms false).1.length ≤ 50 ∧
    ((fetchDriveFolderEntries ms false).2 = true ↔
      50 ≤ (validEntries ms).length) := by
  have h := folderLoop_eq ms 0 (by omega)
  have h1 : (fetchDriveFolderEntries ms false).1 = (validEntries ms).take 50 := by
    simp [fetchDriveFolderEntries, h]
  refine ⟨h1, ?_, ?_⟩
  · rw [h1]
    exact List.length_take_le 50 (validEntries ms)
  · simp only [fetchDriveFolderEntries, h]
    constructor
    · intro hw
      simp at hw
      omega
    · intro hle
      simp
      omega

/-!
## Unique filename resolution (`ensureUniqueName` in `src/utils.ts`)

The filesystem is the list of file names already present in the destination
directory.  `path.extname`/`path.basename` and the decimal rendering of
`${counter}` are platform primitives modelled below.
-/

/-- Decimal digit to character, as JavaScript number-to-string rendering. -/
def digitCharJS (d : Nat) : Char :=
  match d with
  | 0 => '0' | 1 => '1' | 2 => '2' | 3 => '3' | 4 => '4'
  | 5 => '5' | 6 => '6' | 7 => '7' | 8 => '8' | 9 => '9'
  | _ => '?'

/-- Character back to decimal digit (used only in proofs). -/
def charDigitVal (c : Char) : Nat :=
  match c with
  | '0' => 0 | '1' => 1 | '2' => 2 | '3' => 3 | '4' => 4
  | '5' => 5 | '6' => 6 | '7' => 7 | '8' => 8 | '9' => 9
  | _ => 0

/-- Fuel-bounded decimal rendering. -/
def natToDecGo : Nat → Nat → List Char
  | 0, n => [digitCharJS (n % 10)]
  | fuel + 1, n =>
    if n < 10 then [digitCharJS n]
    else natToDecGo fuel (n / 10) ++ [digitCharJS (n % 10)]

/-- `${n}`: the decimal string of a number. -/
def natToDec (n : Nat) : List Char := natToDecGo n n

/-- Value of a decimal digit string (proof-side inverse of `natToDec`). -/
def decVal (l : List Char) : Nat :=
  l.foldl (fun acc c => acc * 10 + charDigitVal c) 0

/-- `path.extname(name)`: the suffix from the last dot, empty when there is
no dot, when the only dot is the leading character, or for the special name
`".."`. -/
def extnameData (s : List Char) : List Char :=
  if s = ['.', '.'] then []
  else
    let afterDotRev := s.reverse.takeWhile (fun c => c ≠ '.')
    if afterDotRev.length + 1 = s.length then []
    else if afterDotRev.length = s.length then []
    else '.' :: afterDotRev.reverse

/-- `path.basename(name, ext)` for a bare file name: strip the suffix `ext`
unless the whole name equals `ext`. -/
def basenameMinusExt (s ext : List Char) : List Char :=
  if ext ≠ [] ∧ s ≠ ext ∧ litPrefix ext.reverse s.reverse then
    s.take (s.length - ext.length)
  else s

/-- The candidate `` `${base} (${counter})${ext}` ``. -/
def candidateName (base ext : String) (counter : Nat) : String :=
  String.mk (base.data ++ (" (".data ++ (natToDec counter ++ (")".data ++ ext.data))))

/-- The `while (fs.existsSync(path.join(dir, candidate)))` loop of
`ensureUniqueName`, with enough fuel that the zero-fuel fallback is
unreachable. -/
def uniqueLoop (files : List String) (base ext : String) :
    String → Nat → Nat → String
  | candidate, _, 0 => candidate
  | candidate, counter, fuel + 1 =>
    if candidate ∈ files then
      uniqueLoop files base ext (candidateName base ext counter) (counter + 1) fuel
    else candidate

/-- `ensureUniqueName(dir, desiredName)` from `src/utils.ts`, over the list
of names already existing in `dir`. -/
def ensureUniqueName (files : List String) (desiredName : String) : String :=
  let ext := String.mk (extnameData desiredName.data)
  let base := String.mk (basenameMinusExt desiredName.data (extnameData desiredName.data))
  uniqueLoop files base ext desiredName 1 (files.length + 2)

lemma digit_roundtrip : ∀ d, d < 10 → charDigitVal (digitCharJS d) = d := by decide

lemma decVal_natToDecGo : ∀ (fuel n : Nat), n < 10 ^ (fuel + 1) →
    decVal (natToDecGo fuel n) = n := by
  intro fuel
  induction fuel with
  | zero =>
    intro n hn
    have hn10 : n < 10 := by
      have hp : (10 : Nat) ^ (0 + 1) = 10 := by norm_num
      rw [hp] at hn
      exact hn
    have hmod : n % 10 = n := Nat.mod_eq_of_lt hn10
    simp [natToDecGo, decVal, hmod, digit_roundtrip n hn10]
  | succ fuel ih =>
    intro n hn
    by_cases h10 : n < 10
    · simp [natToDecGo, h10, decVal, digit_roundtrip n h10]
    · have hdiv : n / 10 < 10 ^ (fuel + 1) := by
        apply Nat.div_lt_of_lt_mul
        calc n < 10 ^ (fuel + 1 + 1) := hn
        _ = 10 * 10 ^ (fuel + 1) := by ring
      have hmod : n % 10 < 10 := Nat.mod_lt _ (by norm_num)
      simp only [natToDecGo, if_neg h10, decVal, List.foldl_append]
      have hrec : (natToDecGo fuel (n / 10)).foldl
          (fun acc c => acc * 10 + charDigitVal c) 0 = n / 10 := ih _ hdiv
      simp only [hrec, List.foldl_cons, List.foldl_nil,
        digit_roundtrip _ hmod]
      omega

lemma natToDec_inj (m n : Nat) (h : natToDec m = natToDec n) : m = n := by
  have hm : decVal (natToDec m) = m :=
    decVal_natToDecGo m m (lt_of_lt_of_le (Nat.lt_pow_self (by norm_num) m)
      (Nat.pow_le_pow_right (by norm_num) (Nat.le_succ m)))
  have hn : decVal (natToDec n) = n :=
    decVal_natToDecGo n n (lt_of_lt_of_le (Nat.lt_pow_self (by norm_num) n)
      (Nat.pow_le_pow_right (by norm_num) (Nat.le_succ n)))
  rw [← hm, ← hn, h]

lemma candidateName_inj (base ext : String) (m n : Nat)
    (h : candidateName base ext m = candidateName base ext n) : m = n := by
  have hd := congrArg String.data h
  simp only [candidateName] at hd
  have h1 := List.append_cancel_left hd
  have h2 := List.append_cancel_left h1
  exact natToDec_inj m n (List.append_cancel_right h2)

lemma exists_free_candidate (files : List String) (base ext : String) :
    ∃ j, j < files.length + 1 ∧ candidateName base ext (1 + j) ∉ files := by
  by_contra hall
  push_neg at hall
  set l := (List.range (files.length + 1)).map
    (fun j => candidateName base ext (1 + j)) with hl
  have hinj : Function.Injective (fun j => candidateName base ext (1 + j)) := by
    intro a b hab
    have := candidateName_inj base ext (1 + a) (1 + b) hab
    omega
  have hnodup : l.Nodup := (List.nodup_range _).map hinj
  have hsub : ∀ x ∈ l, x ∈ files := by
    intro x hx
    obtain ⟨j, hj, rfl⟩ := List.mem_map.mp hx
    exact hall j (List.mem_range.mp hj)
  have hlen : l.length = files.length + 1 := by simp [hl]
  have hcard : l.toFinset.card = l.length := List.toFinset_card_of_nodup hnodup
  have hsubF : l.toFinset ⊆ files.toFinset := fun x hx =>
    List.mem_toFinset.mpr (hsub x (List.mem_toFinset.mp hx))
  have h1 := Finset.card_le_card hsubF
  have h2 := files.toFinset_card_le
  omega

lemma uniqueLoop_finds (files : List String) (base ext : String) :
    ∀ (fuel counter : Nat),
      (∃ j, j < fuel ∧ candidateName base ext (counter + j) ∉ files) →
      ∃ m, counter ≤ m ∧
        uniqueLoop files base ext (candidateName base ext counter)
          (counter + 1) fuel = candidateName base ext m ∧
        candidateName base ext m ∉ files ∧
        (∀ k, counter ≤ k → k < m → candidateName base ext k ∈ files) := by
  intro fuel
  induction fuel with
  | zero =>
    rintro counter ⟨j, hj, -⟩
    omega
  | succ fuel ih =>
    rintro counter ⟨j, hj, hfree⟩
    by_cases hc : candidateName base ext counter ∈ files
    · have hj0 : j ≠ 0 := by
        rintro rfl
        rw [Nat.add_zero] at hfree
        exact hfree hc
      obtain ⟨m, hm1, hm2, hm3, hm4⟩ := ih (counter + 1)
        ⟨j - 1, by omega, by
          have he : counter + 1 + (j - 1) = counter + j := by omega
          rw [he]; exact hfree⟩
      refine ⟨m, by omega, ?_, hm3, ?_⟩
      · simp only [uniqueLoop, if_pos hc]
        exact hm2
      · intro k hk1 hk2
        rcases Nat.eq_or_lt_of_le hk1 with rfl | hlt
        · exact hc
        · exact hm4 k hlt hk2
    · exact ⟨counter, le_refl _, by simp only [uniqueLoop, if_neg hc], hc,
        fun k hk1 hk2 => absurd (lt_of_le_of_lt hk1 hk2) (lt_irrefl _)⟩

/-- C9: `ensureUniqueName` returns the desired name unchanged when no file
of that name exists in the directory; otherwise it returns
`"{base} ({n}){ext}"` for the smallest positive `n` whose name is not
already taken, with `base`/`ext` split off the desired name so the original
extension is preserved. -/
theorem ensureUniqueName_spec (files : List String) (desiredName : String) :
    (desiredName ∉ files → ensureUniqueName files desiredName = desiredName) ∧
    (desiredName ∈ files →
      ∃ n, 1 ≤ n ∧
        ensureUniqueName files desiredName =
          candidateName
            (String.mk (basenameMinusExt desiredName.data (extnameData desiredName.data)))
            (String.mk (extnameData desiredName.data)) n ∧
        candidateName
            (String.mk (basenameMinusExt desiredName.data (extnameData desiredName.data)))
            (String.mk (extnameData desiredName.data)) n ∉ files ∧
        (∀ k, 1 ≤ k → k < n →
          candidateName
            (String.mk (basenameMinusExt desiredName.data (extnameData desiredName.data)))
            (String.mk (extnameData desiredName.data)) k ∈ files)) := by
  set ext := String.mk (extnameData desiredName.data) with hext
  set base := String.mk (basenameMinusExt desiredName.data (extnameData desiredName.data))
    with hbase
  have hfuel : files.length + 2 = (files.length + 1) + 1 := rfl
  constructor
  · intro hnot
    simp only [ensureUniqueName, ← hext, ← hbase, hfuel, uniqueLoop, if_neg hnot]
  · intro hmem
    have hstep : ensureUniqueName files desiredName =
        uniqueLoop files base ext (candidateName base ext 1) 2 (files.length + 1) := by
      simp only [ensureUniqueName, ← hext, ← hbase, hfuel, uniqueLoop, if_pos hmem]
    obtain ⟨j, hj, hfree⟩ := exists_free_candidate files base ext
    obtain ⟨m, hm1, hm2, hm3, hm4⟩ := uniqueLoop_finds files base ext
      (files.length + 1) 1 ⟨j, hj, hfree⟩
    exact ⟨m, hm1, by rw [hstep]; exact hm2, hm3, fun k hk1 hk2 => hm4 k hk1 hk2⟩

/-- Witness for C9: with `report.pdf` present the result is
`report (1).pdf`; with both present the result is `report (2).pdf`, and the
theorem applies at that input. -/
theorem ensureUniqueName_spec_witness :
    ensureUniqueName ["report.pdf"] "report.pdf" = "report (1).pdf" ∧
    ensureUniqueName ["report.pdf", "report (1).pdf"] "report.pdf" =
      "report (2).pdf" ∧
    ensureUniqueName ["other.txt"] "report.pdf" = "report.pdf" ∧
    (∃ n, 1 ≤ n ∧
      ensureUniqueName ["report.pdf", "report (1).pdf"] "report.pdf" =
        candidateName
          (String.mk (basenameMinusExt "report.pdf".data (extnameData "report.pdf".data)))
          (String.mk (extnameData "report.pdf".data)) n ∧
      candidateName
          (String.mk (basenameMinusExt "report.pdf".data (extnameData "report.pdf".data)))
          (String.mk (extnameData "report.pdf".data)) n ∉
        ["report.pdf", "report (1).pdf"] ∧
      (∀ k, 1 ≤ k → k < n →
        candidateName
          (String.mk (basenameMinusExt "report.pdf".data (extnameData "report.pdf".data)))
          (String.mk (extnameData "report.pdf".data)) k ∈
          ["report.pdf", "report (1).pdf"])) := by
  refine ⟨by decide, by decide, ?_, ?_⟩
  · exact (ensureUniqueName_spec ["other.txt"] "report.pdf").1 (by decide)
  · exact (ensureUniqueName_spec ["report.pdf", "report (1).pdf"] "report.pdf").2
      (by decide)

/-!
## Download orchestrator (`downloadFile` in the download module)

`performDownloadRequest` resolves with a `DownloadAttempt` or rejects with
an error; the oracle input is one `Except` per attempt.  The 15-attempt
`for` loop, the body classification, the `throw`s of
`PermissionError`/`FileNotFoundError` inside the `try`, and the `catch`
block that retries everything whose message lacks rate-limit phrases until
the final attempt, are translated faithfully.
-/

/-- `DownloadAttempt` from the download module, extended with the content
streamed to disk on success (what `fs.createWriteStream` wrote). -/
structure DownloadAttempt where
  success : Bool
  filePath : Option String
  body : Option String
  statusCode : Option Nat
  fileContent : String
deriving DecidableEq, Repr

/-- A thrown JavaScript error: its class name and message. -/
structure GdError where
  name : String
  message : String
deriving DecidableEq, Repr

/-- `new PermissionError("Permission denied. The file may not be publicly
accessible.")`. -/
def permissionError : GdError :=
  ⟨"PermissionError", "Permission denied. The file may not be publicly accessible."⟩

/-- `new FileNotFoundError("File not found on Google Drive.")`. -/
def fileNotFoundError : GdError :=
  ⟨"FileNotFoundError", "File not found on Google Drive."⟩

/-- `new Error("Unable to obtain Google Drive confirmation token")`. -/
def tokenUnavailableError : GdError :=
  ⟨"Error", "Unable to obtain Google Drive confirmation token"⟩

/-- One oracle entry: `performDownloadRequest` resolving or rejecting. -/
abbrev AttemptInput := Except GdError DownloadAttempt

/-- `maxAttempts = 15`. -/
def maxAttempts : Nat := 15

/-- Outcome of one iteration of the `try` block: download finished, or
proceed to the next attempt with the (possibly updated) confirmation
token. -/
inductive LoopCtl
  | finish (filePath content : String)
  | next (token : Option String)
deriving DecidableEq, Repr

/-- The non-success part of the `try` block: rate-limit classification,
permission / not-found classification (both `throw`), then confirmation
token extraction with its escalating-delay retry. -/
def classifyBody (attempt : Nat) (tok : Option String) (r : DownloadAttempt) :
    Except GdError LoopCtl :=
  let body := r.body.getD ""
  if r.statusCode = some 429 ∨ strContains body "rate limit" = true ∨
      strContains body "quota" = true ∨ strContains body "429" = true ∨
      strContains body "Too many requests" = true then
    .ok (.next tok)
  else if strContains body "permission" = true ∨
      strContains body "access denied" = true ∨ r.statusCode = some 403 then
    .error permissionError
  else if strContains body "not found" = true ∨ r.statusCode = some 404 then
    .error fileNotFoundError
  else
    match extractConfirmToken body with
    | none =>
      if attempt < maxAttempts - 1 then .ok (.next tok)
      else .error tokenUnavailableError
    | some t => .ok (.next (some t))

/-- The whole `try` block for one attempt. -/
def tryAttempt (attempt : Nat) (tok : Option String) (r : DownloadAttempt) :
    Except GdError LoopCtl :=
  match r.filePath with
  | some p =>
    if r.success = true ∧ p ≠ "" then .ok (.finish p r.fileContent)
    else classifyBody attempt tok r
  | none => classifyBody attempt tok r

/-- The `catch` block: retry (with backoff) whenever the message carries a
rate-limit phrase, rethrow on the final attempt, otherwise retry with the
generic backoff.  `.ok` means continue to the next attempt. -/
def catchAttempt (attempt : Nat) (tok : Option String) (e : GdError) :
    Except GdError (Option String) :=
  if strContains e.message "429" = true ∨
      strContains e.message "rate limit" = true ∨
      strContains e.message "quota" = true ∨
      strContains e.message "Too many requests" = true then
    .ok tok
  else if attempt = maxAttempts - 1 then .error e
  else .ok tok

/-- Result of the download loop. -/
inductive DlResult
  | ok (filePath content : String)
  | fatal (e : GdError)
  | exhausted
  | noInput
deriving DecidableEq, Repr

/-- `for (let attempt = 0; attempt < maxAttempts; attempt += 1)` of
`downloadFile`, consuming one oracle entry per attempt.  `.exhausted`
models `throw new Error("Exceeded maximum attempts while downloading from
Google Drive")`; `.noInput` is the artifact for an exhausted oracle. -/
def downloadLoop (attempt : Nat) (tok : Option String) :
    List AttemptInput → DlResult
  | [] => if maxAttempts ≤ attempt then .exhausted else .noInput
  | i :: rest =>
    if maxAttempts ≤ attempt then .exhausted
    else
      match i with
      | .error e =>
        match catchAttempt attempt tok e with
        | .ok tok₂ => downloadLoop (attempt + 1) tok₂ rest
        | .error e₂ => .fatal e₂
      | .ok r =>
        match tryAttempt attempt tok r with
        | .ok (.finish p c) => .ok p c
        | .ok (.next tok₂) => downloadLoop (attempt + 1) tok₂ rest
        | .error e =>
          match catchAttempt attempt tok e with
          | .ok tok₂ => downloadLoop (attempt + 1) tok₂ rest
          | .error e₂ => .fatal e₂

/-- The response is classified DENIED by the orchestrator: not rate-limited,
and the body/status match the permission checks. -/
def IsPermissionClassified (r : DownloadAttempt) : Prop :=
  ¬(r.statusCode = some 429 ∨ strContains (r.body.getD "") "rate limit" = true ∨
    strContains (r.body.getD "") "quota" = true ∨
    strContains (r.body.getD "") "429" = true ∨
    strContains (r.body.getD "") "Too many requests" = true) ∧
  (strContains (r.body.getD "") "permission" = true ∨
    strContains (r.body.getD "") "access denied" = true ∨
    r.statusCode = some 403)

/-- The response is classified MISSING: not rate-limited, not DENIED, and
the body/status match the not-found checks. -/
def IsNotFoundClassified (r : DownloadAttempt) : Prop :=
  ¬(r.statusCode = some 429 ∨ strContains (r.body.getD "") "rate limit" = true ∨
    strContains (r.body.getD "") "quota" = true ∨
    strContains (r.body.getD "") "429" = true ∨
    strContains (r.body.getD "") "Too many requests" = true) ∧
  ¬(strContains (r.body.getD "") "permission" = true ∨
    strContains (r.body.getD "") "access denied" = true ∨
    r.statusCode = some 403) ∧
  (strContains (r.body.getD "") "not found" = true ∨ r.statusCode = some 404)

lemma classifyBody_perm (attempt : Nat) (tok : Option String)
    (r : DownloadAttempt) (h : IsPermissionClassified r) :
    classifyBody attempt tok r = .error permissionError := by
  obtain ⟨h1, h2⟩ := h
  simp only [classifyBody, if_neg h1, if_pos h2]

lemma classifyBody_notfound (attempt : Nat) (tok : Option String)
    (r : DownloadAttempt) (h : IsNotFoundClassified r) :
    classifyBody attempt tok r = .error fileNotFoundError := by
  obtain ⟨h1, h2, h3⟩ := h
  simp only [classifyBody, if_neg h1, if_neg h2, if_pos h3]

lemma tryAttempt_of_classify (attempt : Nat) (tok : Option String)
    (r : DownloadAttempt) (hs : r.success = false) :
    tryAttempt attempt tok r = classifyBody attempt tok r := by
  cases hfp : r.filePath with
  | none => simp only [tryAttempt, hfp]
  | some p =>
    have hng : ¬(r.success = true ∧ p ≠ "") := by
      rintro ⟨hc, -⟩
      rw [hs] at hc
      cases hc
    simp only [tryAttempt, hfp, if_neg hng]

lemma catchAttempt_nonrate (attempt : Nat) (tok : Option String) (e : GdError)
    (hrate : ¬(strContains e.message "429" = true ∨
      strContains e.message "rate limit" = true ∨
      strContains e.message "quota" = true ∨
      strContains e.message "Too many requests" = true)) :
    catchAttempt attempt tok e =
      if attempt = 14 then .error e else .ok tok := by
  simp only [catchAttempt, if_neg hrate]
  rfl

/-- Counterexample to C1 as stated: a response whose body contains
"permission" on the first attempt does not fail fatally — the thrown
`PermissionError` is caught by the orchestrator's own `catch`, the loop
retries, and the next attempt completes the download. -/
theorem downloadLoop_permission_retried_cex :
    downloadLoop 0 none
        [Except.ok ⟨false, none,
            some "You need permission to access this item", none, ""⟩,
         Except.ok ⟨true, some "out/file.bin", none, some 200, "DATA"⟩] =
      DlResult.ok "out/file.bin" "DATA" := by decide

/-- C1 (amended): a permission-classified (resp. not-found-classified)
response makes the `try` block raise `PermissionError` (resp.
`FileNotFoundError`), but the surrounding `catch` treats these like generic
errors: on attempts 0–13 the loop backs off and retries with the next
attempt, and only when the classification happens on the final attempt
(index 14 of 15) does the error propagate fatally.  Classification errors
do not bypass the retry loop. -/
theorem downloadLoop_classification_spec (attempt : Nat) (tok : Option String)
    (rest : List AttemptInput) (r : DownloadAttempt) (hs : r.success = false) :
    (IsPermissionClassified r → attempt < 14 →
      downloadLoop attempt tok (.ok r :: rest) =
        downloadLoop (attempt + 1) tok rest) ∧
    (IsPermissionClassified r →
      downloadLoop 14 tok (.ok r :: rest) = .fatal permissionError) ∧
    (IsNotFoundClassified r → attempt < 14 →
      downloadLoop attempt tok (.ok r :: rest) =
        downloadLoop (attempt + 1) tok rest) ∧
    (IsNotFoundClassified r →
      downloadLoop 14 tok (.ok r :: rest) = .fatal fileNotFoundError) := by
  have hperm : ¬(strContains permissionError.message "429" = true ∨
      strContains permissionError.message "rate limit" = true ∨
      strContains permissionError.message "quota" = true ∨
      strContains permissionError.message "Too many requests" = true) := by
    decide
  have hnf : ¬(strContains fileNotFoundError.message "429" = true ∨
      strContains fileNotFoundError.message "rate limit" = true ∨
      strContains fileNotFoundError.message "quota" = true ∨
      strContains fileNotFoundError.message "Too many requests" = true) := by
    decide
  have h14 : ¬(maxAttempts ≤ 14) := by decide
  refine ⟨?_, ?_, ?_, ?_⟩
  · intro h hlt
    have h15 : ¬(maxAttempts ≤ attempt) := by
      simp only [maxAttempts]
      omega
    have htry : tryAttempt attempt tok r = .error permissionError := by
      rw [tryAttempt_of_classify attempt tok r hs]
      exact classifyBody_perm attempt tok r h
    have hcatch : catchAttempt attempt tok permissionError = .ok tok := by
      rw [catchAttempt_nonrate attempt tok permissionError hperm,
        if_neg (by omega : ¬ attempt = 14)]
    simp only [downloadLoop, if_neg h15, htry, hcatch]
  · intro h
    have htry : tryAttempt 14 tok r = .error permissionError := by
      rw [tryAttempt_of_classify 14 tok r hs]
      exact classifyBody_perm 14 tok r h
    have hcatch : catchAttempt 14 tok permissionError = .error permissionError := by
      rw [catchAttempt_nonrate 14 tok permissionError hperm, if_pos rfl]
    simp only [downloadLoop, if_neg h14, htry, hcatch]
  · intro h hlt
    have h15 : ¬(maxAttempts ≤ attempt) := by
      simp only [maxAttempts]
      omega
    have htry : tryAttempt attempt tok r = .error fileNotFoundError := by
      rw [tryAttempt_of_classify attempt tok r hs]
      exact classifyBody_notfound attempt tok r h
    have hcatch : catchAttempt attempt tok fileNotFoundError = .ok tok := by
      rw [catchAttempt_nonrate attempt tok fileNotFoundError hnf,
        if_neg (by omega : ¬ attempt = 14)]
    simp only [downloadLoop, if_neg h15, htry, hcatch]
  · intro h
    have htry : tryAttempt 14 tok r = .error fileNotFoundError := by
      rw [tryAttempt_of_classify 14 tok r hs]
      exact classifyBody_notfound 14 tok r h
    have hcatch : catchAttempt 14 tok fileNotFoundError = .error fileNotFoundError := by
      rw [catchAttempt_nonrate 14 tok fileNotFoundError hnf, if_pos rfl]
    simp only [downloadLoop, if_neg h14, htry, hcatch]

/-- Witness for the amended C1: a permission body is retried on attempt 0
and fatal on attempt 14; a not-found body likewise. -/
theorem downloadLoop_classification_spec_witness :
    (downloadLoop 0 none
        [Except.ok ⟨false, none,
            some "You need permission to access this item", none, ""⟩,
         Except.ok ⟨true, some "out/file.bin", none, some 200, "DATA"⟩] =
      downloadLoop 1 none
        [Except.ok ⟨true, some "out/file.bin", none, some 200, "DATA"⟩]) ∧
    (downloadLoop 14 none
        [Except.ok ⟨false, none,
            some "You need permission to access this item", none, ""⟩] =
      DlResult.fatal permissionError) ∧
    (downloadLoop 14 none
        [Except.ok ⟨false, none, some "File was not found", none, ""⟩] =
      DlResult.fatal fileNotFoundError) := by
  refine ⟨?_, ?_, ?_⟩
  · exact (downloadLoop_classification_spec 0 none
      [Except.ok ⟨true, some "out/file.bin", none, some 200, "DATA"⟩]
      ⟨false, none, some "You need permission to access this item", none, ""⟩
      rfl).1 (by unfold IsPermissionClassified; decide) (by decide)
  · exact (downloadLoop_classification_spec 14 none []
      ⟨false, none, some "You need permission to access this item", none, ""⟩
      rfl).2.1 (by unfold IsPermissionClassified; decide)
  · exact (downloadLoop_classification_spec 14 none []
      ⟨false, none, some "File was not found", none, ""⟩
      rfl).2.2.2 (by unfold IsNotFoundClassified; decide)

/-!
## Metadata cache and the verify short-circuit (`src/cache.ts` and
`downloadFile`)

The filesystem is an association list from path to content; the cache is an
association list from resource id to its metadata record (one file per id
under the cache directory).  `calculateFileHash` (SHA-256 via the platform
crypto module) is an explicit function parameter `hashFn`. -/

/-- The filesystem visible to the orchestrator: path → content. -/
abbrev Files : Type := List (String × String)

/-- First-match association lookup (`fs.existsSync` / `fs.readFileSync`). -/
def fsLookup : Files → String → Option String
  | [], _ => none
  | (k, v) :: rest, path => if k = path then some v else fsLookup rest path

/-- Overwriting file write (`fs.createWriteStream` + pipe to completion). -/
def fsWrite : Files → String → String → Files
  | [], path, content => [(path, content)]
  | (k, v) :: rest, path, content =>
    if k = path then (k, content) :: rest else (k, v) :: fsWrite rest path content

/-- `FileMetadata` from `src/types.ts` (the cache record without the
timestamp, exactly what `loadMetadata` re-exposes). -/
structure FileMetadata where
  id : String
  name : String
  size : Option Nat
  hash : Option String
  mimeType : Option String
deriving DecidableEq, Repr

/-- The metadata cache: one record per resource id. -/
abbrev Cache : Type := List (String × FileMetadata)

/-- `loadMetadata(fileId)` from `src/cache.ts`: the cached record for the
id, `null` when absent (or on any cache I/O error). -/
def loadMetadata : Cache → String → Option FileMetadata
  | [], _ => none
  | (k, v) :: rest, fileId => if k = fileId then some v else loadMetadata rest fileId

/-- `saveMetadata(metadata)` from `src/cache.ts`: full overwrite of the
record keyed by `metadata.id`. -/
def saveMetadata : Cache → FileMetadata → Cache
  | [], md => [(md.id, md)]
  | (k, v) :: rest, md =>
    if k = md.id then (k, md) :: rest else (k, v) :: saveMetadata rest md

/-- `verifyFileHash(filePath, expectedHash)` from `src/cache.ts`: stream the
file through the hash and compare; any read error yields `false`. -/
def verifyFileHash (hashFn : String → String) (files : Files)
    (filePath expectedHash : String) : Bool :=
  match fsLookup files filePath with
  | some content => hashFn content = expectedHash
  | none => false

/-- `isFileValid(filePath, expectedHash?)` from `src/cache.ts`: false when
the file is missing; hash comparison when an expected hash is supplied
(JavaScript truthiness: an empty expected hash skips the comparison). -/
def isFileValid (hashFn : String → String) (files : Files)
    (filePath : String) (expectedHash : Option String) : Bool :=
  match fsLookup files filePath with
  | none => false
  | some _ =>
    match expectedHash with
    | some h => if h = "" then true else verifyFileHash hashFn files filePath h
    | none => true

/-- `path.join(destDir, name)`. -/
def pathJoin (dir name : String) : String := dir ++ "/" ++ name

/-- `path.basename(p)`: the component after the last slash. -/
def basenameStr (p : String) : String :=
  String.mk ((p.data.reverse.takeWhile (fun c => c ≠ '/')).reverse)

/-- The expected destination path of the pre-check:
`preferredName ? path.join(destDir, preferredName) : path.join(destDir,
metadata.name || fileId)`. -/
def expectedFinalPath (destDir fileId : String) (preferredName : Option String)
    (md : FileMetadata) : String :=
  match preferredName with
  | some p => pathJoin destDir p
  | none => pathJoin destDir (if md.name = "" then fileId else md.name)

/-- The `if (verify)` pre-check of `downloadFile` (cache hit with a hash,
expected destination path, file still matching): the short-circuit path,
returning the path to report without any network request. -/
def verifyPrecheck (hashFn : String → String) (cache : Cache) (files : Files)
    (fileId destDir : String) (preferredName : Option String) : Option String :=
  match loadMetadata cache fileId with
  | some md =>
    match md.hash with
    | some h =>
      if h = "" then none
      else
        let finalPath := expectedFinalPath destDir fileId preferredName md
        if isFileValid hashFn files finalPath (some h) then some finalPath
        else none
    | none => none
  | none => none

/-- Result of a whole `downloadFile` call. -/
inductive FileResult
  | path (p : String)
  | fatal (e : GdError)
  | exhausted
  | noInput
deriving DecidableEq, Repr

/-- State after a `downloadFile` call: its result, the filesystem, the
cache, and whether any network request was issued. -/
structure DownloadOutcome where
  result : FileResult
  files : Files
  cache : Cache
  networkUsed : Bool
deriving DecidableEq, Repr

/-- `downloadFile` (verify-relevant slice): run the pre-check when `verify`
is set; on a cache-verified hit return the path with no network request;
otherwise run the attempt loop against the network oracle, and on success
write the file and — when `verify` is set — store name/size/hash in the
cache, overwriting any prior record for the id. -/
def downloadFile (hashFn : String → String) (fileId destDir : String)
    (preferredName : Option String) (verify : Bool)
    (files : Files) (cache : Cache) (inputs : List AttemptInput) :
    DownloadOutcome :=
  match (if verify then
      verifyPrecheck hashFn cache files fileId destDir preferredName
    else none) with
  | some p => ⟨.path p, files, cache, false⟩
  | none =>
    match downloadLoop 0 none inputs with
    | .ok p c =>
      let files₂ := fsWrite files p c
      let cache₂ :=
        if verify then
          saveMetadata cache ⟨fileId, basenameStr p, some c.length,
            some (hashFn c), none⟩
        else cache
      ⟨.path p, files₂, cache₂, true⟩
    | .fatal e => ⟨.fatal e, files, cache, true⟩
    | .exhausted => ⟨.exhausted, files, cache, true⟩
    | .noInput => ⟨.noInput, files, cache, true⟩

lemma loadMetadata_saveMetadata_self (cache : Cache) (md : FileMetadata) :
    loadMetadata (saveMetadata cache md) md.id = some md := by
  induction cache with
  | nil => simp [saveMetadata, loadMetadata]
  | cons kv rest ih =>
    obtain ⟨k, v⟩ := kv
    by_cases hk : k = md.id
    · simp [saveMetadata, loadMetadata, hk]
    · simp [saveMetadata, loadMetadata, hk, ih]

lemma downloadFile_precheck_some (hashFn : String → String)
    (fileId destDir : String) (preferredName : Option String) (verify : Bool)
    (files : Files) (cache : Cache) (inputs : List AttemptInput) (p : String)
    (hpre : (if verify = true then
        verifyPrecheck hashFn cache files fileId destDir preferredName
      else none) = some p) :
    downloadFile hashFn fileId destDir preferredName verify files cache inputs =
      ⟨.path p, files, cache, false⟩ := by
  simp only [downloadFile, hpre]

lemma downloadFile_precheck_none_network (hashFn : String → String)
    (fileId destDir : String) (preferredName : Option String) (verify : Bool)
    (files : Files) (cache : Cache) (inputs : List AttemptInput)
    (hpre : (if verify = true then
        verifyPrecheck hashFn cache files fileId destDir preferredName
      else none) = none) :
    (downloadFile hashFn fileId destDir preferredName verify files cache
      inputs).networkUsed = true := by
  simp only [downloadFile, hpre]
  cases hloop : downloadLoop 0 none inputs <;> simp

/-- C4: if verification is requested, the cache holds a record with a
(non-empty) hash for the id, and the file at the expected destination path
still matches that hash, then `downloadFile` returns that path immediately
with no network request and unchanged state; whenever the pre-check fails
(in particular on a hash mismatch) the network loop runs — the pre-check is
the only path on which no request is issued; and a completed verified
download stores the computed hash, size and name in the cache, overwriting
any prior record for the id. -/
theorem downloadFile_verify_spec (hashFn : String → String)
    (fileId destDir : String) (preferredName : Option String)
    (files : Files) (cache : Cache) (inputs : List AttemptInput) :
    (∀ md h, loadMetadata cache fileId = some md → md.hash = some h → h ≠ "" →
      isFileValid hashFn files (expectedFinalPath destDir fileId preferredName md)
        (some h) = true →
      downloadFile hashFn fileId destDir preferredName true files cache inputs =
        ⟨.path (expectedFinalPath destDir fileId preferredName md),
         files, cache, false⟩) ∧
    (∀ verify : Bool,
      (downloadFile hashFn fileId destDir preferredName verify files cache
        inputs).networkUsed = false →
      verify = true ∧ ∃ p,
        verifyPrecheck hashFn cache files fileId destDir preferredName = some p ∧
        downloadFile hashFn fileId destDir preferredName verify files cache
          inputs = ⟨.path p, files, cache, false⟩) ∧
    (∀ p c,
      verifyPrecheck hashFn cache files fileId destDir preferredName = none →
      downloadLoop 0 none inputs = .ok p c →
      downloadFile hashFn fileId destDir preferredName true files cache inputs =
        ⟨.path p, fsWrite files p c,
         saveMetadata cache
           ⟨fileId, basenameStr p, some c.length, some (hashFn c), none⟩,
         true⟩ ∧
      loadMetadata
          (downloadFile hashFn fileId destDir preferredName true files cache
            inputs).cache fileId =
        some ⟨fileId, basenameStr p, some c.length, some (hashFn c), none⟩) := by
  refine ⟨?_, ?_, ?_⟩
  · intro md h hmd hh hne hvalid
    have hpre : verifyPrecheck hashFn cache files fileId destDir preferredName =
        some (expectedFinalPath destDir fileId preferredName md) := by
      simp only [verifyPrecheck, hmd, hh, if_neg hne, if_pos hvalid]
    exact downloadFile_precheck_some hashFn fileId destDir preferredName true
      files cache inputs _ (by rw [if_pos rfl, hpre])
  · intro verify hnet
    by_cases hv : verify = true
    · subst hv
      cases hpre : verifyPrecheck hashFn cache files fileId destDir preferredName with
      | some p =>
        exact ⟨rfl, p, rfl, downloadFile_precheck_some hashFn fileId
          destDir preferredName true files cache inputs p
          (by rw [if_pos rfl, hpre])⟩
      | none =>
        exact absurd hnet (by
          rw [downloadFile_precheck_none_network hashFn fileId destDir
            preferredName true files cache inputs (by rw [if_pos rfl, hpre])]
          simp)
    · have hvf : verify = false := by
        cases verify
        · rfl
        · exact absurd rfl hv
      subst hvf
      exact absurd hnet (by
        rw [downloadFile_precheck_none_network hashFn fileId destDir
          preferredName false files cache inputs (by simp)]
        simp)
  · intro p c hpre hloop
    have hmain : downloadFile hashFn fileId destDir preferredName true files
        cache inputs =
        ⟨.path p, fsWrite files p c,
         saveMetadata cache
           ⟨fileId, basenameStr p, some c.length, some (hashFn c), none⟩,
         true⟩ := by
      simp only [downloadFile, eq_self_iff_true, if_true, hpre, hloop]
    refine ⟨hmain, ?_⟩
    rw [hmain]
    exact loadMetadata_saveMetadata_self cache
      ⟨fileId, basenameStr p, some c.length, some (hashFn c), none⟩

/-- Witness for C4 at concrete inputs: a cache-verified hit short-circuits
with no network use; that outcome feeds the only-short-circuit conjunct; a
missing cache record forces the loop and the verified success overwrites
the cache record. -/
theorem downloadFile_verify_spec_witness :
    (downloadFile (fun s => s) "ID" "d" (some "f.bin") true
        [("d/f.bin", "C")] [("ID", ⟨"ID", "f.bin", some 1, some "C", none⟩)] [] =
      ⟨.path (pathJoin "d" "f.bin"), [("d/f.bin", "C")],
        [("ID", ⟨"ID", "f.bin", some 1, some "C", none⟩)], false⟩) ∧
    (true = true ∧ ∃ p,
      verifyPrecheck (fun s => s)
          [("ID", ⟨"ID", "f.bin", some 1, some "C", none⟩)]
          [("d/f.bin", "C")] "ID" "d" (some "f.bin") = some p ∧
      downloadFile (fun s => s) "ID" "d" (some "f.bin") true
          [("d/f.bin", "C")] [("ID", ⟨"ID", "f.bin", some 1, some "C", none⟩)]
          [] = ⟨.path p, [("d/f.bin", "C")],
            [("ID", ⟨"ID", "f.bin", some 1, some "C", none⟩)], false⟩) ∧
    (downloadFile (fun s => s) "ID" "d" none true [] []
        [Except.ok ⟨true, some "d/g.bin", none, some 200, "DATA"⟩] =
      ⟨.path "d/g.bin", fsWrite [] "d/g.bin" "DATA",
        saveMetadata []
          ⟨"ID", basenameStr "d/g.bin", some "DATA".length,
            some ((fun s => s) "DATA"), none⟩, true⟩) := by
  refine ⟨?_, ?_, ?_⟩
  · exact (downloadFile_verify_spec (fun s => s) "ID" "d" (some "f.bin")
      [("d/f.bin", "C")] [("ID", ⟨"ID", "f.bin", some 1, some "C", none⟩)] []).1
      ⟨"ID", "f.bin", some 1, some "C", none⟩ "C" (by decide) rfl (by decide)
      (by decide)
  · exact (downloadFile_verify_spec (fun s => s) "ID" "d" (some "f.bin")
      [("d/f.bin", "C")] [("ID", ⟨"ID", "f.bin", some 1, some "C", none⟩)] []).2.1
      true (by decide)
  · exact ((downloadFile_verify_spec (fun s => s) "ID" "d" none [] []
      [Except.ok ⟨true, some "d/g.bin", none, some 200, "DATA"⟩]).2.2
      "d/g.bin" "DATA" (by decide) (by decide)).1

end Gdown
